import Mathlib

/-!
Verification of the pyconfig/pyconfix expression compiler, evaluator and
dependency-propagation engine.

The definitions below are a shallow embedding of the Python sources:
  * `tokenize`, `shunting_yard`, `evaluate_postfix_expr` and
    `BooleanExpressionParser.eval_operator` from `pyconfix.py`;
  * the option tree (`ConfigOption`) and the engine methods
    `is_option_available`, `option_meets_dependency`,
    `reset_dependent_options`, `reset_hidden_dependent_options` and the
    value-mutating part of `flatten_options` from `pyconfix.py`;
  * the option type and the engine methods of `library/pyconfig.py`
    (`force_enable_option`, `is_externally_restricted`,
    `handle_force_enable` and their callees).

Python runtime values that can appear as option values or expression
operands (None, bool, int, float, str) are modelled by `PyVal`; Python
exceptions are modelled by `Except String`.  Python floats are modelled
exactly as rationals: no claim below depends on IEEE rounding, and the
numeric literals of the expression language are all short decimals.
-/

/-- A Python runtime value as used by the configuration engine:
`None`, a bool, an int, a float (modelled as a rational) or a string. -/
inductive PyVal : Type where
  | none : PyVal
  | bool : Bool → PyVal
  | int : Int → PyVal
  | float : Rat → PyVal
  | str : String → PyVal
deriving DecidableEq, Repr

/-- Python truthiness: `bool(v)`. -/
def truthy : PyVal → Bool
  | .none => false
  | .bool b => b
  | .int n => n ≠ 0
  | .float q => q ≠ 0
  | .str s => s ≠ ""

/-- Numeric view of a Python value: bools, ints and floats all live in
Python's numeric tower (`True == 1`, `1 == 1.0`); strings and None do not. -/
def toRat? : PyVal → Option Rat
  | .bool b => some (if b then mkRat 1 1 else mkRat 0 1)
  | .int n => some (mkRat n 1)
  | .float q => some q
  | _ => none

/-- Python `==` on engine values: numeric values compare numerically across
bool/int/float; `None == None` holds; all other cross-type pairs are unequal
(never an error). -/
def pyEq (a b : PyVal) : Bool :=
  match toRat? a, toRat? b with
  | some x, some y => x = y
  | _, _ =>
    match a, b with
    | .str s, .str t => s = t
    | .none, .none => true
    | _, _ => false

/-- Code-point comparison of strings (Python compares strings
lexicographically by code point). -/
def lexCmp : List Char → List Char → Ordering
  | [], [] => .eq
  | [], _ :: _ => .lt
  | _ :: _, [] => .gt
  | c :: cs, d :: ds =>
    if c.val < d.val then .lt
    else if d.val < c.val then .gt
    else lexCmp cs ds

/-- Python ordering comparison (`<`, `>`, `<=`, `>=`): defined within the
numeric tower and between strings, a `TypeError` otherwise (in particular
whenever an operand is `None`). -/
def pyCmp (a b : PyVal) : Except String Ordering :=
  match toRat? a, toRat? b with
  | some x, some y => .ok (compare x y)
  | _, _ =>
    match a, b with
    | .str s, .str t => .ok (lexCmp s.data t.data)
    | _, _ => .error "TypeError: unsupported comparison"

/-- `BooleanExpressionParser.eval_operator` from pyconfix.py.  For the unary
`!` the source passes no `left`, leaving the Python default `None`; callers
of the embedding pass `PyVal.none` there. -/
def eval_operator (op : String) (right left : PyVal) : Except String PyVal :=
  if op = "!" then .ok (.bool (! truthy right))
  else if op = "&&" then .ok (.bool (truthy left && truthy right))
  else if op = "||" then .ok (.bool (truthy left || truthy right))
  else if op = "==" then .ok (.bool (pyEq left right))
  else if op = "!=" then .ok (.bool (! pyEq left right))
  else if op = ">" then do
    let c ← pyCmp left right
    .ok (.bool (c = .gt))
  else if op = "<" then do
    let c ← pyCmp left right
    .ok (.bool (c = .lt))
  else if op = ">=" then do
    let c ← pyCmp left right
    .ok (.bool (c ≠ .lt))
  else if op = "<=" then do
    let c ← pyCmp left right
    .ok (.bool (c ≠ .gt))
  else .error ("Unknown operator: " ++ op)

/-! ### Character classes (Python `str` predicates, ASCII fragment) -/

def pyIsSpace (c : Char) : Bool :=
  c = ' ' || c = '\t' || c = '\n' || c = '\x0d' || c = '\x0b' || c = '\x0c'

def pyIsDigit (c : Char) : Bool := '0' ≤ c && c ≤ '9'

def pyIsAlpha (c : Char) : Bool :=
  ('a' ≤ c && c ≤ 'z') || ('A' ≤ c && c ≤ 'Z')

def pyIsAlnum (c : Char) : Bool := pyIsAlpha c || pyIsDigit c

def pyUpperChar (c : Char) : Char :=
  if 'a' ≤ c && c ≤ 'z' then Char.ofNat (c.toNat - 32) else c

/-- Python `str.upper()` (ASCII fragment). -/
def pyUpper (s : String) : String := ⟨s.data.map pyUpperChar⟩

/-! ### `tokenize` (pyconfix.py) -/

/-- The numeric-literal scan of `tokenize`: consume digits and at most one
decimal point (`dots` is the number of dots seen so far). -/
def scanNumber : List Char → Nat → List Char × List Char
  | [], _ => ([], [])
  | c :: cs, dots =>
    if pyIsDigit c then
      let (t, r) := scanNumber cs dots
      (c :: t, r)
    else if c = '.' && dots = 0 then
      let (t, r) := scanNumber cs 1
      (c :: t, r)
    else ([], c :: cs)

theorem scanNumber_rest_le : ∀ (cs : List Char) (d : Nat),
    (scanNumber cs d).2.length ≤ cs.length := by
  intro cs
  induction cs with
  | nil => intro d; simp [scanNumber]
  | cons c cs ih =>
    intro d
    simp only [scanNumber]
    by_cases h1 : pyIsDigit c = true
    · simpa [h1] using Nat.le_succ_of_le (ih d)
    · by_cases h2 : (c = '.' && decide (d = 0)) = true
      · simpa [h1, h2] using Nat.le_succ_of_le (ih 1)
      · simp [h1, h2]

/-- A take-while/rest split (the `while` loops of the identifier and
string-literal scans). -/
def pySpan (p : Char → Bool) : List Char → List Char × List Char
  | [] => ([], [])
  | c :: cs =>
    if p c then
      let (t, r) := pySpan p cs
      (c :: t, r)
    else ([], c :: cs)

theorem pySpan_rest_le (p : Char → Bool) : ∀ cs : List Char,
    (pySpan p cs).2.length ≤ cs.length := by
  intro cs
  induction cs with
  | nil => simp [pySpan]
  | cons c cs ih =>
    simp only [pySpan]
    by_cases h : p c = true
    · simpa [h] using Nat.le_succ_of_le ih
    · simp [h]

/-- The quoted-string scan of `tokenize`: everything up to the closing quote
(which is included in the token), or up to the end of the input if the quote
is never closed. -/
def scanQuoted (cs : List Char) : List Char × List Char :=
  match pySpan (fun d => d ≠ '\'') cs with
  | (body, []) => (body, [])
  | (body, q :: rest2) => (body ++ [q], rest2)

theorem scanQuoted_rest_le (cs : List Char) :
    (scanQuoted cs).2.length ≤ cs.length := by
  have h := pySpan_rest_le (fun d => d ≠ '\'') cs
  unfold scanQuoted
  rcases hs : pySpan (fun d => d ≠ '\'') cs with ⟨body, rest⟩
  rw [hs] at h
  cases rest with
  | nil => simp
  | cons q rest2 => simp at h ⊢; omega

/-- Is `c` one of the characters that can begin an operator token? -/
def isOpChar (c : Char) : Bool :=
  c = '&' || c = '|' || c = '!' || c = '=' || c = '>' || c = '<'

/-- The operator scan of `tokenize`: a two-character operator when the next
two characters form `&& || == != >= <=`, a single character otherwise. -/
def scanOp (c : Char) (cs : List Char) : List Char × List Char :=
  match cs with
  | d :: rest2 =>
    if (c = '&' && d = '&') || (c = '|' && d = '|') || (c = '=' && d = '=')
        || (c = '!' && d = '=') || (c = '>' && d = '=') || (c = '<' && d = '=') then
      ([c, d], rest2)
    else ([c], d :: rest2)
  | [] => ([c], [])

theorem scanOp_rest_le (c : Char) (cs : List Char) :
    (scanOp c cs).2.length ≤ cs.length := by
  unfold scanOp
  cases cs with
  | nil => simp
  | cons d rest2 =>
    by_cases h : ((c = '&' && d = '&') || (c = '|' && d = '|') || (c = '=' && d = '=')
        || (c = '!' && d = '=') || (c = '>' && d = '=') || (c = '<' && d = '=')) = true
    · simp [h]
    · simp [h]

/-- Is the next character a digit (used for `.5`-style literals)? -/
def headIsDigit : List Char → Bool
  | [] => false
  | c :: _ => pyIsDigit c

/-- `tokenize` from pyconfix.py, on the character list of the expression.
Produces the token strings, or the `Unexpected character` error.

The recursion is driven by a fuel counter so that it is structural and
computes by `rfl`/`decide`; every step consumes at least one input character
(`scanNumber_rest_le`, `pySpan_rest_le`, `scanQuoted_rest_le`,
`scanOp_rest_le`), so with the `length + 1` fuel supplied by `tokenize` the
out-of-fuel branch is unreachable (`tokenizeGo_fuel_irrelevant`). -/
def tokenizeGo : Nat → List Char → Except String (List String)
  | _, [] => .ok []
  | 0, _ :: _ => .error "RecursionError"
  | fuel + 1, c :: cs =>
    if pyIsSpace c then tokenizeGo fuel cs
    else if pyIsDigit c || (c = '.' && headIsDigit cs) then
      (tokenizeGo fuel (scanNumber cs (if c = '.' then 1 else 0)).2).map
        (fun ts => String.mk (c :: (scanNumber cs (if c = '.' then 1 else 0)).1) :: ts)
    else if pyIsAlpha c || c = '_' then
      (tokenizeGo fuel (pySpan (fun d => pyIsAlnum d || d = '_') cs).2).map
        (fun ts => String.mk (c :: (pySpan (fun d => pyIsAlnum d || d = '_') cs).1) :: ts)
    else if c = '\'' then
      (tokenizeGo fuel (scanQuoted cs).2).map
        (fun ts => String.mk (c :: (scanQuoted cs).1) :: ts)
    else if isOpChar c then
      (tokenizeGo fuel (scanOp c cs).2).map (fun ts => String.mk (scanOp c cs).1 :: ts)
    else if c = '(' || c = ')' then
      (tokenizeGo fuel cs).map (fun ts => String.mk [c] :: ts)
    else
      .error ("Unexpected character: " ++ String.mk [c])

/-- Any fuel larger than the input length gives the same tokenization: the
fuel counter of `tokenizeGo` is an artifact of the embedding, not a
behaviour. -/
theorem tokenizeGo_fuel_irrelevant : ∀ (n : Nat) (l : List Char) (f g : Nat),
    l.length < f → l.length < g → l.length ≤ n → tokenizeGo f l = tokenizeGo g l := by
  intro n
  induction n with
  | zero =>
    intro l f g hf hg hn
    interval_cases hl : l.length
    · rcases List.length_eq_zero.mp hl with rfl
      cases f <;> cases g <;> rfl
  | succ n ih =>
    intro l f g hf hg hn
    match l, f, g with
    | [], f, g => cases f <;> cases g <;> rfl
    | c :: cs, f + 1, g + 1 =>
      simp only [tokenizeGo]
      simp only [List.length_cons] at hf hg hn
      have hnum := scanNumber_rest_le cs (if c = '.' then 1 else 0)
      have hspan := pySpan_rest_le (fun d => pyIsAlnum d || d = '_') cs
      have hq := scanQuoted_rest_le cs
      have hop := scanOp_rest_le c cs
      rw [ih cs f g (by omega) (by omega) (by omega),
        ih (scanNumber cs (if c = '.' then 1 else 0)).2 f g (by omega) (by omega) (by omega),
        ih (pySpan (fun d => pyIsAlnum d || d = '_') cs).2 f g (by omega) (by omega) (by omega),
        ih (scanQuoted cs).2 f g (by omega) (by omega) (by omega),
        ih (scanOp c cs).2 f g (by omega) (by omega) (by omega)]

def tokenize (s : String) : Except String (List String) :=
  tokenizeGo (s.data.length + 1) s.data

/-! ### `shunting_yard` (pyconfix.py) -/

/-- Python `token.replace('.', '', 1)`: remove the first dot, if any. -/
def removeFirstDot : List Char → List Char
  | [] => []
  | c :: cs => if c = '.' then cs else c :: removeFirstDot cs

/-- Python `str.isdigit()` (ASCII fragment): nonempty and all digits. -/
def pyStrIsDigit (l : List Char) : Bool := !l.isEmpty && l.all pyIsDigit

/-- Python `str.isalnum()` (ASCII fragment): nonempty and all alphanumeric. -/
def pyStrIsAlnum (l : List Char) : Bool := !l.isEmpty && l.all pyIsAlnum

/-- `token.replace('.', '', 1).isdigit()`: a numeric-literal token. -/
def isNumericTok (t : String) : Bool := pyStrIsDigit (removeFirstDot t.data)

/-- `token.startswith("'") and token.endswith("'")`.  Note that on the
one-character token `'` both hold (Python's startswith/endswith both look at
the same single character). -/
def isQuotedTok (t : String) : Bool :=
  match t.data with
  | [] => false
  | c :: cs => c = '\'' && List.getLast (c :: cs) (by simp) = '\''

def hasUnderscore (t : String) : Bool := t.data.contains '_'

/-- The operand test of `shunting_yard` and `evaluate_postfix_expr`. -/
def isOperandTok (t : String) : Bool :=
  isNumericTok t || pyStrIsAlnum t.data || isQuotedTok t || hasUnderscore t

/-- The precedence table of `shunting_yard`:
`!` is 4, the comparisons are 3, `&&` is 2, `||` is 1. -/
def precedence? (t : String) : Option Nat :=
  if t = "!" then some 4
  else if t = "==" || t = "!=" || t = ">" || t = "<" || t = ">=" || t = "<=" then some 3
  else if t = "&&" then some 2
  else if t = "||" then some 1
  else none

def precOf (t : String) : Nat := (precedence? t).getD 0

/-- The operator-stack pop loop of `shunting_yard`: pop while the top is not
`(` and its precedence is ≥ (or, for the right-associative `!`, strictly >)
the precedence of the incoming token.  Returns (popped, remaining stack). -/
def popWhileGE (p : Nat) (strict : Bool) : List String → List String × List String
  | [] => ([], [])
  | op :: rest =>
    if op ≠ "(" && (if strict then decide (precOf op > p) else decide (precOf op ≥ p)) then
      let (out, st) := popWhileGE p strict rest
      (op :: out, st)
    else ([], op :: rest)

/-- Generic take-while/rest split on strings (the `)`-handling pop loop). -/
def pySpanStr (p : String → Bool) : List String → List String × List String
  | [] => ([], [])
  | s :: ss =>
    if p s then
      let (t, r) := pySpanStr p ss
      (s :: t, r)
    else ([], s :: ss)

/-- The token loop of `shunting_yard`.  A token that is neither an operand,
an operator, nor a parenthesis is silently dropped (the source's `if`/`elif`
chain has no final `else`). -/
def shuntGo : List String → List String → List String → Except String (List String)
  | [], output, operators =>
    if operators.any (fun o => o = "(" || o = ")") then .error "Mismatched parentheses"
    else .ok (output ++ operators)
  | t :: ts, output, operators =>
    if isOperandTok t then shuntGo ts (output ++ [t]) operators
    else if (precedence? t).isSome then
      let (popped, rest) := popWhileGE (precOf t) (t = "!") operators
      shuntGo ts (output ++ popped) (t :: rest)
    else if t = "(" then shuntGo ts output ("(" :: operators)
    else if t = ")" then
      let (popped, rest) := pySpanStr (fun o => o ≠ "(") operators
      match rest with
      | "(" :: rest2 => shuntGo ts (output ++ popped) rest2
      | _ => .error "Mismatched parentheses"
    else shuntGo ts output operators

def shunting_yard (tokens : List String) : Except String (List String) :=
  shuntGo tokens [] []

/-- `compile` of the spec's API: `tokenize` followed by `shunting_yard`. -/
def compileExpr (s : String) : Except String (List String) := do
  let ts ← tokenize s
  shunting_yard ts

/-! ### `evaluate_postfix_expr` (pyconfix.py) -/

def digitsToNat (l : List Char) : Nat :=
  l.foldl (fun a c => a * 10 + (c.toNat - '0'.toNat)) 0

/-- Python `int(token)` on an all-digit token. -/
def parseIntTok (t : String) : Int := (digitsToNat t.data : Int)

def tenPow : Nat → Nat
  | 0 => 1
  | n + 1 => 10 * tenPow n

/-- Python `float(token)` on a digits-and-one-dot token, modelled exactly as
a rational. -/
def parseFloatTok (t : String) : Rat :=
  let (ip, rest) := pySpan (fun c => c ≠ '.') t.data
  let fp := rest.tail
  mkRat (digitsToNat ip * tenPow fp.length + digitsToNat fp) (tenPow fp.length)

/-- Python `token[1:-1]` for quoted tokens. -/
def stripQuotes (t : String) : String := ⟨t.data.tail.dropLast⟩

/-- The token loop of `evaluate_postfix_expr`, carrying the operand stack
(top first).  `operand_func` resolves identifier tokens, `evop` applies an
operator (for `!` the source passes no left operand, leaving Python's
default `None`). -/
def evalGo (operand_func : String → Except String PyVal)
    (evop : String → PyVal → PyVal → Except String PyVal) :
    List String → List PyVal → Except String PyVal
  | [], stack =>
    match stack with
    | [v] => .ok v
    | _ => .error "Invalid expression: extra items remain on the stack"
  | t :: ts, stack =>
    if isNumericTok t then
      let v := if t.data.contains '.' then PyVal.float (parseFloatTok t)
               else PyVal.int (parseIntTok t)
      evalGo operand_func evop ts (v :: stack)
    else if pyStrIsAlnum t.data || isQuotedTok t || hasUnderscore t then
      if isQuotedTok t then
        evalGo operand_func evop ts (.str (stripQuotes t) :: stack)
      else do
        let v ← operand_func t
        evalGo operand_func evop ts (v :: stack)
    else if t = "!" then
      match stack with
      | [] => .error "Missing operand for '!'"
      | r :: rest => do
        let v ← evop "!" r .none
        evalGo operand_func evop ts (v :: rest)
    else
      match stack with
      | r :: l :: rest => do
        let v ← evop t r l
        evalGo operand_func evop ts (v :: rest)
      | _ => .error ("Missing operands for '" ++ t ++ "'")

def evaluate_postfix_expr (tokens : List String)
    (operand_func : String → Except String PyVal)
    (evop : String → PyVal → PyVal → Except String PyVal) : Except String PyVal :=
  evalGo operand_func evop tokens []

/-- `BooleanExpressionParser.evaluate_postfix`: `evaluate_postfix_expr` with
the parser's getter and its `eval_operator`. -/
def evaluate_with_getter (tokens : List String)
    (getter : String → Except String PyVal) : Except String PyVal :=
  evaluate_postfix_expr tokens getter eval_operator

example : tokenize "A || B && C" = .ok ["A", "||", "B", "&&", "C"] := by rfl

example : compileExpr "A || B && C" = .ok ["A", "B", "C", "&&", "||"] := by rfl

example : compileExpr "A && (B || C" = .error "Mismatched parentheses" := by rfl

example : compileExpr "!" = .ok ["!"] := by rfl

example : compileExpr ".5 == 0.5" = .ok [".5", "0.5", "=="] := by rfl

example :
    evaluate_with_getter [".5", "0.5", "=="] (fun _ => .ok .none) =
      .ok (.bool true) := by rfl

example : compileExpr "A && 'oops" = .ok ["A", "&&"] := by rfl

/-! ### The option tree of pyconfix.py

`ConfigOption` carries exactly the constructor-set fields of the source
class that the engine reads or writes: `data` and `description` are payload
for the UI and are omitted.  `postfix_dependencies` is the precompiled form
of `dependencies` (`shunting_yard(tokenize(...))`, computed once by the
constructor); concrete trees below are accompanied by `example`s checking
that their `postfix_dependencies` equal `compileExpr` of their
`dependencies`.

The engine mutates option values in place through object identity; the
embedding therefore addresses an option by its index path from the root
list and threads the whole root list (the source's `self.options`) through
every mutation. -/

inductive ConfigOption : Type where
  | mk
      (name : String) (option_type : String) (value : PyVal) (default : PyVal)
      (external : Bool) (dependencies : String)
      (postfix_dependencies : List String)
      (options : List ConfigOption) (choices : List String) (expanded : Bool)

namespace ConfigOption

def name : ConfigOption → String
  | .mk n _ _ _ _ _ _ _ _ _ => n

def option_type : ConfigOption → String
  | .mk _ t _ _ _ _ _ _ _ _ => t

def value : ConfigOption → PyVal
  | .mk _ _ v _ _ _ _ _ _ _ => v

def default : ConfigOption → PyVal
  | .mk _ _ _ d _ _ _ _ _ _ => d

def external : ConfigOption → Bool
  | .mk _ _ _ _ e _ _ _ _ _ => e

def dependencies : ConfigOption → String
  | .mk _ _ _ _ _ dep _ _ _ _ => dep

def postfix_dependencies : ConfigOption → List String
  | .mk _ _ _ _ _ _ pf _ _ _ => pf

def options : ConfigOption → List ConfigOption
  | .mk _ _ _ _ _ _ _ os _ _ => os

def choices : ConfigOption → List String
  | .mk _ _ _ _ _ _ _ _ ch _ => ch

def expanded : ConfigOption → Bool
  | .mk _ _ _ _ _ _ _ _ _ ex => ex

/-- Replace the (mutable) `value` field, keeping everything else. -/
def withValue : ConfigOption → PyVal → ConfigOption
  | .mk n t _ d e dep pf os ch ex, v => .mk n t v d e dep pf os ch ex

end ConfigOption

/-- Navigate an index path (`[i, j, ...]`: the `j`-th child of the `i`-th
root option, ...) to an option. -/
def getAt? : List ConfigOption → List Nat → Option ConfigOption
  | l, [i] => l.get? i
  | l, i :: p => (l.get? i).bind fun o => getAt? o.options p
  | _, [] => none

def getAtE (root : List ConfigOption) (p : List Nat) : Except String ConfigOption :=
  match getAt? root p with
  | some o => .ok o
  | none => .error "IndexError: invalid option path"

/-- Write the `value` field of the option at a path (the identity-based
in-place mutation of the source).  An invalid path leaves the tree
unchanged; every use below addresses an existing option. -/
def setValAt (l : List ConfigOption) : List Nat → PyVal → List ConfigOption
  | [], _ => l
  | [i], v =>
    match l.get? i with
    | some o => l.set i (o.withValue v)
    | none => l
  | i :: p, v =>
    match l.get? i with
    | some (.mk n t vv d e dep pf os ch ex) =>
      l.set i (.mk n t vv d e dep pf (setValAt os p v) ch ex)
    | none => l

/-- The children list addressed by a path (`[]` is the root list itself). -/
def childrenAt? (root : List ConfigOption) (p : List Nat) : Option (List ConfigOption) :=
  match p with
  | [] => some root
  | _ :: _ => (getAt? root p).map fun o => o.options

/-! ### Python helpers shared by the engine methods -/

/-- Python list indexing `l[i]` with an option value as index (ints and
bools index; negative indices count from the end; anything else is a
`TypeError`, out of range an `IndexError`). -/
def pyIndexVal : PyVal → Except String Int
  | .int n => .ok n
  | .bool b => .ok (if b then 1 else 0)
  | _ => .error "TypeError: list indices must be integers"

def pyListGet (l : List String) (v : PyVal) : Except String String := do
  let i ← pyIndexVal v
  let j : Int := if i < 0 then i + l.length else i
  if j < 0 then .error "IndexError: list index out of range"
  else
    match l.get? j.toNat with
    | some x => .ok x
    | none => .error "IndexError: list index out of range"

/-- Python `l.index(x)` (first position comparing equal, else ValueError). -/
def pyListIndexOfGo (v : PyVal) : Nat → List String → Except String Int
  | _, [] => .error "ValueError: x not in list"
  | i, c :: cs => if pyEq v (.str c) then .ok i else pyListIndexOfGo v (i + 1) cs

def pyListIndexOf (l : List String) (v : PyVal) : Except String Int :=
  pyListIndexOfGo v 0 l

/-- Python `str(v)` for the values the engine compares textually.  The
float case is unreachable in everything proved below; Python's float
formatting is not modelled. -/
def pyStr : PyVal → String
  | .none => "None"
  | .bool b => if b then "True" else "False"
  | .int n => toString n
  | .float q => toString q.num ++ "/" ++ toString q.den
  | .str s => s

/-- Python `s.split(sep)` for a nonempty separator, via fuel that always
suffices (each step consumes at least one character). -/
def splitOnAux : Nat → List Char → List Char → List Char → List (List Char)
  | _, _, acc, [] => [acc.reverse]
  | 0, _, acc, rest => [acc.reverse ++ rest]
  | fuel + 1, sep, acc, c :: cs =>
    if sep.isPrefixOf (c :: cs) then
      acc.reverse :: splitOnAux fuel sep [] (List.drop sep.length (c :: cs))
    else splitOnAux fuel sep (c :: acc) cs

def pySplit (s : String) (sep : String) : List String :=
  (splitOnAux (s.data.length + 1) sep.data [] s.data).map fun l => ⟨l⟩

/-- Python `s.strip()`. -/
def pyStrip (s : String) : String :=
  ⟨((s.data.dropWhile pyIsSpace).reverse.dropWhile pyIsSpace).reverse⟩

/-- `[d.strip() for d in deps.split("&&") if d.strip()]` — the clause list
used by `reset_dependent_options` (and the library's loaders). -/
def depClauses (deps : String) : List String :=
  ((pySplit deps "&&").map pyStrip).filter fun d => d ≠ ""

/-- The regex `^([^=]+)=([^=]+)$`: exactly one `=` with nonempty sides. -/
def matchKV (dep : String) : Option (String × String) :=
  match pySplit dep "=" with
  | [k, v] => if k ≠ "" && v ≠ "" then some (k, v) else none
  | _ => none

example : pySplit "A && !B" "&&" = ["A ", " !B"] := by rfl
example : depClauses "A && !B" = ["A", "!B"] := by rfl
example : depClauses "" = [] := by rfl
example : matchKV "K=a,b" = some ("K", "a,b") := by rfl
example : matchKV "!X" = none := by rfl
example : matchKV "K==v" = none := by rfl

/-! ### `is_option_available` and its getter (pyconfix.py) -/

mutual

/-- One step of `getter_function_impl`: a group is searched through its
children (its own name is never matched); a non-group option matching the
key case-insensitively resolves to its value — for a `multiple_choice`
option, to `choices[value]` (or `None` when the value is `None`). -/
def getterOne (key : String) : ConfigOption → Except String (Option PyVal)
  | .mk n t v _ _ _ _ os ch _ =>
    if t = "group" then getterList key os
    else if pyUpper n = pyUpper key then
      if t = "multiple_choice" then
        if v = PyVal.none then .ok (some .none)
        else (pyListGet ch v).map fun c => some (.str c)
      else .ok (some v)
    else .ok none

/-- The search loop of `getter_function_impl` over an option list:
depth-first, first match wins, `none` when the name is absent. -/
def getterList (key : String) : List ConfigOption → Except String (Option PyVal)
  | [] => .ok none
  | o :: rest =>
    match getterOne key o with
    | .ok (some v) => .ok (some v)
    | .ok none => getterList key rest
    | .error e => .error e

end

/-- `getter_function` of `is_option_available`: the impl's value, with a
missing name resolving to `None`. -/
def getter_function (root : List ConfigOption) (key : String) :
    Except String PyVal :=
  (getterList key root).map fun r => r.getD .none

/-- `pyconfix.is_option_available`: `True` for an option with no dependency
string, otherwise the raw result of evaluating the precompiled postfix
dependency against the current values of the whole tree. -/
def is_option_available (root : List ConfigOption) (o : ConfigOption) :
    Except String PyVal :=
  if o.dependencies ≠ "" then
    evaluate_postfix_expr o.postfix_dependencies (getter_function root) eval_operator
  else .ok (.bool true)

/-! ### `option_meets_dependency` (pyconfix.py) -/

/-- `pyconfix.option_meets_dependency option dep`: does the single clause
`dep` (a bare name, `!name` or `name=value-list`) refer to `option` and hold
for its current value?  Group options never meet a clause. -/
def option_meets_dependency (o : ConfigOption) (dep : String) :
    Except String Bool :=
  if o.option_type = "group" then .ok false
  else
    match dep.data with
    | '!' :: restName =>
      .ok (pyUpper o.name = pyUpper ⟨restName⟩ && !truthy o.value)
    | _ =>
      match matchKV dep with
      | some (key, valstr) =>
        let values := (pySplit valstr ",").map pyStrip
        if pyUpper o.name = pyUpper key then
          if o.option_type = "multiple_choice" then
            (pyListGet o.choices o.value).map fun c => values.contains c
          else if o.option_type = "int" || o.option_type = "string" then
            .ok (values.contains (pyStr o.value))
          else .ok false
        else .ok false
      | none => .ok (pyUpper o.name = pyUpper dep && truthy o.value)

/-- The value an option is restored to when it reappears:
`choices.index(default)` for a `multiple_choice` option, `default`
otherwise (shared by `reset_dependent_options`,
`reset_hidden_dependent_options` and `flatten_options`). -/
def restoredValue (o : ConfigOption) : Except String PyVal :=
  if o.option_type = "multiple_choice" then
    (pyListIndexOf o.choices o.default).map fun i => .int i
  else .ok o.default

/-! ### `reset_dependent_options` (pyconfix.py)

The source is doubly recursive (into group children, and into the freshly
restored option's own dependents over the whole tree), driven by object
identity.  The embedding runs a single fuel-indexed interpreter over two
kinds of frames — iterating the options of one list, and iterating the
dependency clauses of one option — so that the recursion is structural in
the fuel and computes by `rfl`/`decide`.  Python's unbounded recursion
(which can hit the interpreter's recursion limit on cyclic schemas) is
modelled by the `RecursionError` result when the fuel runs out. -/

inductive RdoFrame : Type where
  | list (changedPath listPath : List Nat) (idx : Nat)
  | deps (changedPath optPath : List Nat) (pending : List String)

def rdoRun : Nat → List ConfigOption → RdoFrame → Except String (List ConfigOption)
  | 0, _, _ => .error "RecursionError"
  | fuel + 1, root, .list changedPath listPath idx =>
    match childrenAt? root listPath with
    | none => .error "IndexError: invalid option path"
    | some children =>
      if h : idx < children.length then do
        let root ← rdoRun fuel root
          (.deps changedPath (listPath ++ [idx])
            (depClauses (children.get ⟨idx, h⟩).dependencies))
        rdoRun fuel root (.list changedPath listPath (idx + 1))
      else .ok root
  | _ + 1, root, .deps _ _ [] => .ok root
  | fuel + 1, root, .deps changedPath optPath (dep :: rest) => do
    let changed ← getAtE root changedPath
    let opt ← getAtE root optPath
    let b ← option_meets_dependency changed dep
    if b then do
      let av ← is_option_available root opt
      let root ←
        if truthy av ∧ opt.value = PyVal.none then do
          let v ← restoredValue opt
          rdoRun fuel (setValAt root optPath v) (.list optPath [] 0)
        else pure root
      let opt2 ← getAtE root optPath
      let root ←
        if opt2.option_type = "group" then rdoRun fuel root (.list changedPath optPath 0)
        else pure root
      rdoRun fuel root (.deps changedPath optPath rest)
    else rdoRun fuel root (.deps changedPath optPath rest)

/-- `pyconfix.reset_dependent_options(option, self.options)` with `option`
the option at `changedPath`. -/
def reset_dependent_options (fuel : Nat) (root : List ConfigOption)
    (changedPath : List Nat) : Except String (List ConfigOption) :=
  rdoRun fuel root (.list changedPath [] 0)

/-! ### `reset_hidden_dependent_options` (pyconfix.py) -/

def rhGo : Nat → List ConfigOption → List Nat → Nat → Except String (List ConfigOption)
  | 0, _, _, _ => .error "RecursionError"
  | fuel + 1, root, listPath, idx =>
    match childrenAt? root listPath with
    | none => .error "IndexError: invalid option path"
    | some children =>
      if idx < children.length then do
        let p := listPath ++ [idx]
        let o ← getAtE root p
        if o.option_type = "group" then do
          let root ← rhGo fuel root p 0
          rhGo fuel root listPath (idx + 1)
        else do
          let av ← is_option_available root o
          if truthy av then rhGo fuel root listPath (idx + 1)
          else do
            let v ← restoredValue o
            rhGo fuel (setValAt root p v) listPath (idx + 1)
      else .ok root

/-- `pyconfix.reset_hidden_dependent_options(self.options)`: walk the tree
and reset every unavailable non-group option's value to its default (for a
`multiple_choice` option, to the default's index). -/
def reset_hidden_dependent_options (fuel : Nat) (root : List ConfigOption) :
    Except String (List ConfigOption) :=
  rhGo fuel root [] 0

/-! ### The value mutation of `flatten_options` (pyconfix.py)

`flatten_options` both builds the display list and keeps values consistent:
an unavailable non-group option's value is set to `None`, an available
option with value `None` is restored to its default (the spec's
`apply_visibility`).  Only the value mutation is modelled; the returned
display list (and the `depth` bookkeeping) feeds the UI.  Note the walk
recurses only into `expanded` groups, and skips the subtree of an
unavailable group entirely unless `show_disabled` is set. -/

def flGo : Nat → Bool → List ConfigOption → List Nat → Nat → Except String (List ConfigOption)
  | 0, _, _, _, _ => .error "RecursionError"
  | fuel + 1, sd, root, listPath, idx =>
    match childrenAt? root listPath with
    | none => .error "IndexError: invalid option path"
    | some children =>
      if idx < children.length then do
        let p := listPath ++ [idx]
        let o ← getAtE root p
        let av ← is_option_available root o
        if truthy av then do
          let root1 ←
            if o.value = PyVal.none then do
              let v ← restoredValue o
              pure (setValAt root p v)
            else pure root
          let root2 ←
            if o.option_type = "group" ∧ o.expanded then flGo fuel sd root1 p 0
            else pure root1
          flGo fuel sd root2 listPath (idx + 1)
        else do
          let root1 := if o.option_type ≠ "group" then setValAt root p PyVal.none else root
          if sd then do
            let root2 ←
              if o.option_type = "group" ∧ o.expanded then flGo fuel sd root1 p 0
              else pure root1
            flGo fuel sd root2 listPath (idx + 1)
          else flGo fuel sd root1 listPath (idx + 1)
      else .ok root

/-- The value-mutating pass of `pyconfix.flatten_options(self.options)`
(the spec's `apply_visibility`). -/
def flatten_options_values (fuel : Nat) (show_disabled : Bool)
    (root : List ConfigOption) : Except String (List ConfigOption) :=
  flGo fuel show_disabled root [] 0

/-! ### The option tree and engine of library/pyconfig.py

`library/pyconfig.py` is an earlier engine in the same repository: option
dependencies are a *list* of simple clause strings (no expression
compiler), and availability is clause-by-clause matching over the top-level
option list.  `LibOption` is its `ConfigOption` (again without the
UI payload field `data`).  As in the pyconfix embedding, the mutable state
is the top-level option list and options are addressed by index paths. -/

inductive LibOption : Type where
  | mk
      (name : String) (option_type : String) (value : PyVal) (default : PyVal)
      (external : Bool) (dependencies : List String)
      (options : List LibOption) (choices : List String) (expanded : Bool)

namespace LibOption

def name : LibOption → String
  | .mk n _ _ _ _ _ _ _ _ => n

def option_type : LibOption → String
  | .mk _ t _ _ _ _ _ _ _ => t

def value : LibOption → PyVal
  | .mk _ _ v _ _ _ _ _ _ => v

def default : LibOption → PyVal
  | .mk _ _ _ d _ _ _ _ _ => d

def external : LibOption → Bool
  | .mk _ _ _ _ e _ _ _ _ => e

def dependencies : LibOption → List String
  | .mk _ _ _ _ _ dep _ _ _ => dep

def options : LibOption → List LibOption
  | .mk _ _ _ _ _ _ os _ _ => os

def choices : LibOption → List String
  | .mk _ _ _ _ _ _ _ ch _ => ch

def withValue : LibOption → PyVal → LibOption
  | .mk n t _ d e dep os ch ex, v => .mk n t v d e dep os ch ex

end LibOption

def getAtL? : List LibOption → List Nat → Option LibOption
  | l, [i] => l.get? i
  | l, i :: p => (l.get? i).bind fun o => getAtL? o.options p
  | _, [] => none

def getAtLE (root : List LibOption) (p : List Nat) : Except String LibOption :=
  match getAtL? root p with
  | some o => .ok o
  | none => .error "IndexError: invalid option path"

def setValAtL (l : List LibOption) : List Nat → PyVal → List LibOption
  | [], _ => l
  | [i], v =>
    match l.get? i with
    | some o => l.set i (o.withValue v)
    | none => l
  | i :: p, v =>
    match l.get? i with
    | some (.mk n t vv d e dep os ch ex) =>
      l.set i (.mk n t vv d e dep (setValAtL os p v) ch ex)
    | none => l

def childrenAtL? (root : List LibOption) (p : List Nat) : Option (List LibOption) :=
  match p with
  | [] => some root
  | _ :: _ => (getAtL? root p).map fun o => o.options

/-- Python `sub in s` (substring containment). -/
def substrGo (sub : List Char) : List Char → Bool
  | [] => sub.isEmpty
  | c :: cs => sub.isPrefixOf (c :: cs) || substrGo sub cs

def isSubstr (sub s : String) : Bool := substrGo sub.data s.data

namespace PyLib

/-- `pyconfig.option_meets_dependency` (the library version): exact,
case-sensitive name comparison; a `None` value fails every non-negated
clause; in a `key=value-list` clause the last three disjuncts of the source
do not re-check the name. -/
def option_meets_dependency (o : LibOption) (dep : String) :
    Except String Bool :=
  if o.option_type = "group" then .ok false
  else
    match dep.data with
    | '!' :: restName =>
      .ok (o.name == String.mk restName && !truthy o.value)
    | _ =>
      if o.value = PyVal.none then .ok false
      else
        match matchKV dep with
        | some (key, valstr) =>
          let values := (pySplit valstr ",").map pyStrip
          if o.name == key && values.any (fun v => pyEq o.value (.str v)) then
            .ok true
          else if o.option_type = "multiple_choice" then do
            let c ← pyListGet o.choices o.value
            .ok (values.contains c
              || (o.option_type == "int" && values.contains (pyStr o.value))
              || (o.option_type == "string"
                  && values.any fun v => pyEq o.value (.str v)))
          else
            .ok ((o.option_type == "int" && values.contains (pyStr o.value))
              || (o.option_type == "string"
                  && values.any fun v => pyEq o.value (.str v)))
        | none => .ok (o.name == dep && truthy o.value)

/-- `pyconfig.is_dependency_met`: some top-level option meets the clause
(short-circuiting `any`). -/
def is_dependency_met (dep : String) : List LibOption → Except String Bool
  | [] => .ok false
  | o :: rest => do
    let b ← option_meets_dependency o dep
    if b then .ok true else is_dependency_met dep rest

def allDepsMet (self_options : List LibOption) : List String → Except String Bool
  | [] => .ok true
  | dep :: rest => do
    let b ← is_dependency_met dep self_options
    if b then allDepsMet self_options rest else .ok false

/-- `pyconfig.is_option_available`: every dependency clause is met
(short-circuiting `all` over the top-level options only). -/
def is_option_available (self_options : List LibOption) (o : LibOption) :
    Except String Bool :=
  allDepsMet self_options o.dependencies

/-- `pyconfig.find_option`: first top-level option with exactly this name
(the library version does not search group children). -/
def find_option (nm : String) : List LibOption → Option LibOption
  | [] => none
  | o :: rest => if o.name = nm then some o else find_option nm rest

/-- `pyconfig.option_in_dependency`: does the clause refer to this option
by name (exact comparison)? -/
def option_in_dependency (o : LibOption) (dep : String) : Bool :=
  if o.option_type == "group" then false
  else
    match dep.data with
    | '!' :: restName => o.name == String.mk restName
    | _ =>
      match matchKV dep with
      | some (key, _) => o.name == key
      | none => o.name == dep

/-! `pyconfig.is_externally_restricted`, modelled with its two slips kept:
for a `!name` clause the source has `key == dependency_string[1:]` — a
comparison, not an assignment — so `key` keeps its initial value `""`; and
when `find_option` misses, the loop does `return False` instead of moving
to the next clause.  The recursion through found options is fuel-indexed
(Python recurses unboundedly and can hit its recursion limit on cyclic
dependency graphs). -/

inductive IerFrame : Type where
  | opt (o : LibOption)
  | loop (pending : List String)

def ierRun : Nat → List LibOption → IerFrame → Except String Bool
  | 0, _, _ => .error "RecursionError"
  | fuel + 1, self_options, .opt o =>
    if o.external then .ok true
    else ierRun fuel self_options (.loop o.dependencies)
  | _ + 1, _, .loop [] => .ok false
  | fuel + 1, self_options, .loop (dep :: rest) =>
    let key :=
      match dep.data with
      | '!' :: _ => ""
      | _ =>
        match matchKV dep with
        | some (k, _) => k
        | none => dep
    match find_option key self_options with
    | none => .ok false
    | some opt => do
      let b ← ierRun fuel self_options (.opt opt)
      if b then .ok true else ierRun fuel self_options (.loop rest)

def is_externally_restricted (fuel : Nat) (self_options : List LibOption)
    (o : LibOption) : Except String Bool :=
  ierRun fuel self_options (.opt o)

/-- `pyconfig.extract_force_enable_value_if_applicable`.  Note two source
quirks kept here: the `in` checks are substring tests against the raw
value string, and the multiple-choice fallback reads `option.defalut` — a
misspelled attribute, an `AttributeError` at runtime. -/
def extract_force_enable_value_if_applicable (o : LibOption) (dep : String) :
    Except String PyVal :=
  if o.option_type = "group" then .ok .none
  else
    match dep.data with
    | '!' :: restName =>
      if o.name == String.mk restName && truthy o.value then .ok (.bool false)
      else .ok o.value
    | _ =>
      match matchKV dep with
      | some (key, valstr) =>
        if o.name = key then
          if o.option_type = "multiple_choice" then do
            let c ← pyListGet o.choices o.value
            if isSubstr c valstr then .ok o.value
            else .error "AttributeError: no attribute defalut"
          else if !isSubstr (pyStr o.value) valstr then
            match (pySplit valstr ",").map pyStrip with
            | v :: _ => .ok (.str v)
            | [] => .error "IndexError: list index out of range"
          else .ok o.value
        else .ok (if o.name = dep then .bool true else .none)
      | none => .ok (if o.name = dep then .bool true else .none)

def libRestoredValue (o : LibOption) : Except String PyVal :=
  if o.option_type = "multiple_choice" then
    (pyListIndexOf o.choices o.default).map fun i => .int i
  else .ok o.default

/-- The short-circuiting `any(option_meets_dependency(option, dep) ...)` of
the library's `reset_dependent_options`. -/
def lrdAny (changed : LibOption) : List String → Except String Bool
  | [] => .ok false
  | dep :: rest => do
    let b ← option_meets_dependency changed dep
    if b then .ok true else lrdAny changed rest

/-- `pyconfig.reset_dependent_options(option, options)`: restore dependents
that became available, recursing through restored options (over the whole
tree) and into group children. -/
def lrdRun : Nat → List LibOption → List Nat → List Nat → Nat →
    Except String (List LibOption)
  | 0, _, _, _, _ => .error "RecursionError"
  | fuel + 1, root, changedPath, listPath, idx =>
    match childrenAtL? root listPath with
    | none => .error "IndexError: invalid option path"
    | some children =>
      if idx < children.length then do
        let p := listPath ++ [idx]
        let changed ← getAtLE root changedPath
        let opt ← getAtLE root p
        let b ← lrdAny changed opt.dependencies
        let root ←
          if b then do
            let av ← is_option_available root opt
            if av ∧ opt.value = PyVal.none then do
              let v ← libRestoredValue opt
              lrdRun fuel (setValAtL root p v) p [] 0
            else pure root
          else pure root
        let opt2 ← getAtLE root p
        let root ←
          if b ∧ opt2.option_type = "group" then lrdRun fuel root changedPath p 0
          else pure root
        lrdRun fuel root changedPath listPath (idx + 1)
      else .ok root

/-! `pyconfig.force_enable_option(option, set_value)`: give the option its
forced value (`set_value`, or a type-appropriate on-value), cascade with
`reset_dependent_options`, then walk every top-level option against each of
the forced option's own dependency clauses and recursively force the
referenced options.  The Python `set_value=None` default and a `None`
returned by `extract_force_enable_value_if_applicable` are the same value,
so both are `PyVal.none` here, as in the source. -/

inductive FeFrame : Type where
  | force (p : List Nat) (set_value : PyVal)
  | chainOpts (deps : List String) (j : Nat)
  | chainDeps (deps : List String) (j : Nat) (pending : List String)

def feRun : Nat → List LibOption → FeFrame → Except String (List LibOption)
  | 0, _, _ => .error "RecursionError"
  | fuel + 1, root, .force p setv => do
    let o ← getAtLE root p
    let newv ←
      if o.option_type = "bool" then
        pure (if setv ≠ PyVal.none then setv else .bool true)
      else if o.option_type = "multiple_choice" then
        if setv ≠ PyVal.none then pure setv
        else (pyListIndexOf o.choices o.default).map fun i => PyVal.int i
      else pure (if setv ≠ PyVal.none then setv else o.default)
    let root := setValAtL root p newv
    let root ← lrdRun fuel root p [] 0
    feRun fuel root (.chainOpts o.dependencies 0)
  | fuel + 1, root, .chainOpts deps j =>
    if j < root.length then do
      let root ← feRun fuel root (.chainDeps deps j deps)
      feRun fuel root (.chainOpts deps (j + 1))
    else .ok root
  | _ + 1, root, .chainDeps _ _ [] => .ok root
  | fuel + 1, root, .chainDeps deps j (dep :: rest) => do
    let opt ← getAtLE root [j]
    if option_in_dependency opt dep then do
      let ev ← extract_force_enable_value_if_applicable opt dep
      let root ← feRun fuel root (.force [j] ev)
      feRun fuel root (.chainDeps deps j rest)
    else feRun fuel root (.chainDeps deps j rest)

def force_enable_option (fuel : Nat) (root : List LibOption) (p : List Nat)
    (set_value : PyVal) : Except String (List LibOption) :=
  feRun fuel root (.force p set_value)

/-- The outcome of `handle_force_enable`: the externally-restricted prompt,
a silent return (visible or group option), or a performed force-enable. -/
inductive FEOutcome : Type where
  | restricted : FEOutcome
  | ignored : FEOutcome
  | enabled : FEOutcome
deriving DecidableEq, Repr

/-- `pyconfig.handle_force_enable` for the top-level option at `row` (the
UI passes the selected row of the display list): surface the
externally-restricted prompt without touching the tree, ignore options that
are visible or groups, otherwise force-enable. -/
def handle_force_enable (fuel : Nat) (root : List LibOption) (row : Nat) :
    Except String (FEOutcome × List LibOption) := do
  let o ← getAtLE root [row]
  let r ← ierRun fuel root (.opt o)
  if r then .ok (.restricted, root)
  else if o.value ≠ PyVal.none ∨ o.option_type = "group" then .ok (.ignored, root)
  else do
    let root2 ← feRun fuel root (.force [row] PyVal.none)
    .ok (.enabled, root2)

end PyLib

/-! ### Infrastructure for the visibility-pass theorems

The two nontrivial properties below (idempotence of the visibility pass and
the hidden-iff-unavailable invariant) are proved for flat trees — no
`group` options — in which every identifier referenced by an option's
compiled dependency resolves to an option strictly earlier in the walk
order.  The lemmas here relate value updates (`setValAt`), the getter and
availability under such updates. -/

/-- The skeleton of an option: everything except its (mutable) value. -/
def skel (o : ConfigOption) : ConfigOption := o.withValue PyVal.none

theorem withValue_value (o : ConfigOption) (v : PyVal) :
    (o.withValue v).value = v := by cases o; rfl

theorem withValue_self (o : ConfigOption) : o.withValue o.value = o := by
  cases o; rfl

theorem withValue_withValue (o : ConfigOption) (v w : PyVal) :
    (o.withValue v).withValue w = o.withValue w := by cases o; rfl

theorem skel_withValue (o : ConfigOption) (v : PyVal) :
    skel (o.withValue v) = skel o := by cases o; rfl

theorem skel_eq_parts {o o' : ConfigOption} (h : skel o = skel o') :
    o.name = o'.name ∧ o.option_type = o'.option_type ∧
    o.default = o'.default ∧ o.external = o'.external ∧
    o.dependencies = o'.dependencies ∧
    o.postfix_dependencies = o'.postfix_dependencies ∧
    o.options = o'.options ∧ o.choices = o'.choices ∧
    o.expanded = o'.expanded := by
  cases o
  cases o'
  simp only [skel, ConfigOption.withValue, ConfigOption.mk.injEq] at h
  simp only [ConfigOption.name, ConfigOption.option_type, ConfigOption.default,
    ConfigOption.external, ConfigOption.dependencies,
    ConfigOption.postfix_dependencies, ConfigOption.options,
    ConfigOption.choices, ConfigOption.expanded]
  tauto

theorem eq_withValue_of_skel {o o' : ConfigOption} (h : skel o = skel o') :
    o' = o.withValue o'.value := by
  cases o
  cases o'
  simp only [skel, ConfigOption.withValue, ConfigOption.mk.injEq] at h
  simp only [ConfigOption.withValue, ConfigOption.value, ConfigOption.mk.injEq]
  tauto

theorem list_set_self {α : Type} : ∀ (l : List α) (i : Nat) (a : α),
    l.get? i = some a → l.set i a = l := by
  intro l
  induction l with
  | nil => intro i a h; cases h
  | cons x xs ih =>
    intro i a h
    cases i with
    | zero =>
      rw [List.get?_cons_zero] at h
      cases h
      rfl
    | succ i =>
      rw [List.get?_cons_succ] at h
      rw [List.set, ih i a h]

theorem setValAt_single (s : List ConfigOption) (i : Nat) (v : PyVal) :
    setValAt s [i] v =
      match s.get? i with
      | some o => s.set i (o.withValue v)
      | none => s := rfl

theorem setValAt_get?_ne (s : List ConfigOption) (i : Nat) (v : PyVal)
    (j : Nat) (h : j ≠ i) : (setValAt s [i] v).get? j = s.get? j := by
  rw [setValAt_single]
  cases hg : s.get? i with
  | none => rfl
  | some o => exact List.get?_set_ne _ _ (fun he => h he.symm)

theorem setValAt_get?_eq (s : List ConfigOption) (i : Nat) (v : PyVal)
    (o : ConfigOption) (h : s.get? i = some o) :
    (setValAt s [i] v).get? i = some (o.withValue v) := by
  rw [setValAt_single, h]
  have := List.get?_set_eq (o.withValue v) i s
  rw [this, h]
  rfl

theorem setValAt_self (s : List ConfigOption) (i : Nat) (o : ConfigOption)
    (h : s.get? i = some o) : setValAt s [i] o.value = s := by
  rw [setValAt_single, h]
  show s.set i (o.withValue o.value) = s
  rw [withValue_self]
  exact list_set_self s i o h

theorem setValAt_length (s : List ConfigOption) (i : Nat) (v : PyVal) :
    (setValAt s [i] v).length = s.length := by
  rw [setValAt_single]
  cases hg : s.get? i with
  | none => rfl
  | some o => simp

/-- Two option lists with the same skeletons: identical except for values. -/
def sameSkeleton (s s' : List ConfigOption) : Prop :=
  s.map skel = s'.map skel

theorem sameSkeleton_refl (s : List ConfigOption) : sameSkeleton s s := rfl

theorem sameSkeleton_trans {s t u : List ConfigOption}
    (h1 : sameSkeleton s t) (h2 : sameSkeleton t u) : sameSkeleton s u :=
  h1.trans h2

theorem sameSkeleton_length {s s' : List ConfigOption}
    (h : sameSkeleton s s') : s.length = s'.length := by
  have := congrArg List.length h
  simpa using this

theorem sameSkeleton_get? {s s' : List ConfigOption} (h : sameSkeleton s s')
    (j : Nat) : (s.get? j).map skel = (s'.get? j).map skel := by
  have := congrArg (fun l => l.get? j) h
  simpa [List.get?_map] using this

theorem sameSkeleton_setValAt (s : List ConfigOption) (i : Nat) (v : PyVal) :
    sameSkeleton s (setValAt s [i] v) := by
  unfold sameSkeleton
  rw [setValAt_single]
  cases hg : s.get? i with
  | none => rfl
  | some o =>
    rw [List.map_set]
    rw [skel_withValue]
    symm
    apply list_set_self
    rw [List.get?_map, hg]
    rfl

theorem sameSkeleton_symm {s s' : List ConfigOption}
    (h : sameSkeleton s s') : sameSkeleton s' s := h.symm

theorem get?_some_lt {α : Type} {l : List α} {i : Nat} {a : α}
    (h : l.get? i = some a) : i < l.length := by
  by_contra hc
  rw [List.get?_eq_none.mpr (Nat.le_of_not_lt hc)] at h
  cases h

/-- A flat tree: no option is a group. -/
def FlatTree (s : List ConfigOption) : Prop :=
  ∀ i o, s.get? i = some o → o.option_type ≠ "group"

def flatTreeOK (s : List ConfigOption) : Bool :=
  s.all fun o => !(o.option_type == "group")

theorem flatTree_of_ok {s : List ConfigOption} (h : flatTreeOK s = true) :
    FlatTree s := by
  intro i o hio
  have hmem : o ∈ s := List.get?_mem hio
  have := List.all_eq_true.mp h o hmem
  simpa using this

/-- The identifier tokens of a postfix list: exactly those the evaluator
resolves through the getter. -/
def identTok (t : String) : Bool :=
  !isNumericTok t && (pyStrIsAlnum t.data || isQuotedTok t || hasUnderscore t)
    && !isQuotedTok t

/-- Backward references only: every identifier token of an option's
compiled dependency matches (case-insensitively) only options strictly
earlier in the list. -/
def BackRefs (s : List ConfigOption) : Prop :=
  ∀ i o, s.get? i = some o → ∀ t ∈ o.postfix_dependencies, identTok t = true →
    ∀ j o', s.get? j = some o' → pyUpper o'.name = pyUpper t → j < i

def backRefsOK (s : List ConfigOption) : Bool :=
  (List.range s.length).all fun i =>
    match s.get? i with
    | some o =>
      o.postfix_dependencies.all fun t =>
        !identTok t ||
        (List.range s.length).all fun j =>
          match s.get? j with
          | some o' => !(pyUpper o'.name == pyUpper t) || decide (j < i)
          | none => true
    | none => true

theorem backRefs_of_ok {s : List ConfigOption} (h : backRefsOK s = true) :
    BackRefs s := by
  intro i o hio t ht hid j o' hjo' hname
  have hi : i < s.length := get?_some_lt hio
  have hj : j < s.length := get?_some_lt hjo'
  have h1 := List.all_eq_true.mp h i (List.mem_range.mpr hi)
  simp only [hio] at h1
  have h2 := List.all_eq_true.mp h1 t ht
  rw [hid] at h2
  simp only [Bool.not_true, Bool.false_or] at h2
  have h3 := List.all_eq_true.mp h2 j (List.mem_range.mpr hj)
  simp only [hjo'] at h3
  have hbeq : (pyUpper o'.name == pyUpper t) = true := by
    simpa using hname
  rw [hbeq] at h3
  simpa using h3

/-- Non-multiple-choice options have a non-null default (so that restoring
a visible option really makes it visible). -/
def NonNullDefaults (s : List ConfigOption) : Prop :=
  ∀ i o, s.get? i = some o → o.option_type ≠ "multiple_choice" →
    o.default ≠ PyVal.none

def nonNullDefaultsOK (s : List ConfigOption) : Bool :=
  s.all fun o =>
    (o.option_type == "multiple_choice") || !(o.default == PyVal.none)

theorem nonNullDefaults_of_ok {s : List ConfigOption}
    (h : nonNullDefaultsOK s = true) : NonNullDefaults s := by
  intro i o hio hty
  have hmem : o ∈ s := List.get?_mem hio
  have := List.all_eq_true.mp h o hmem
  simp only [Bool.or_eq_true, beq_iff_eq] at this
  rcases this with h1 | h1
  · exact absurd h1 hty
  · simpa using h1

theorem skel_of_get? {s s' : List ConfigOption} (hsk : sameSkeleton s s')
    {j : Nat} {o' : ConfigOption} (h : s'.get? j = some o') :
    ∃ o, s.get? j = some o ∧ skel o = skel o' := by
  have hm := sameSkeleton_get? hsk j
  rw [h] at hm
  cases hg : s.get? j with
  | none => rw [hg] at hm; cases hm
  | some o =>
    rw [hg] at hm
    refine ⟨o, rfl, ?_⟩
    simpa using hm

theorem FlatTree_of_skel {s s' : List ConfigOption} (hsk : sameSkeleton s s')
    (h : FlatTree s) : FlatTree s' := by
  intro i o' hio'
  obtain ⟨o, ho, hskel⟩ := skel_of_get? hsk hio'
  obtain ⟨_, hty, _⟩ := skel_eq_parts hskel
  rw [← hty]
  exact h i o ho

theorem BackRefs_of_skel {s s' : List ConfigOption} (hsk : sameSkeleton s s')
    (h : BackRefs s) : BackRefs s' := by
  intro i o' hio' t ht hid j o₂ hjo₂ hname
  obtain ⟨o, ho, hskel⟩ := skel_of_get? hsk hio'
  obtain ⟨_, _, _, _, _, hpf, _, _, _⟩ := skel_eq_parts hskel
  obtain ⟨o₃, ho₃, hskel₃⟩ := skel_of_get? hsk hjo₂
  obtain ⟨hn₃, _⟩ := skel_eq_parts hskel₃
  exact h i o ho t (by rw [hpf]; exact ht) hid j o₃ ho₃ (by rw [hn₃]; exact hname)

theorem NonNullDefaults_of_skel {s s' : List ConfigOption}
    (hsk : sameSkeleton s s') (h : NonNullDefaults s) : NonNullDefaults s' := by
  intro i o' hio' hty
  obtain ⟨o, ho, hskel⟩ := skel_of_get? hsk hio'
  obtain ⟨_, hty', hdef, _⟩ := skel_eq_parts hskel
  rw [← hdef]
  exact h i o ho (by rw [hty']; exact hty)

theorem except_bind_congr {α β : Type} (x : Except String α)
    {k k' : α → Except String β} (h : ∀ a, k a = k' a) :
    (x >>= k) = (x >>= k') := by
  cases x with
  | error e => rfl
  | ok a => exact h a

/-- The evaluator only consults the resolver on identifier tokens: two
resolvers agreeing there give identical evaluations. -/
theorem evalGo_congr (f g : String → Except String PyVal)
    (evop : String → PyVal → PyVal → Except String PyVal) :
    ∀ (toks : List String) (stack : List PyVal),
      (∀ t ∈ toks, identTok t = true → f t = g t) →
      evalGo f evop toks stack = evalGo g evop toks stack := by
  intro toks
  induction toks with
  | nil => intro stack _; rfl
  | cons t ts ih =>
    intro stack h
    have hts : ∀ u ∈ ts, identTok u = true → f u = g u :=
      fun u hu => h u (List.mem_cons_of_mem _ hu)
    have ht := h t (List.mem_cons_self _ _)
    simp only [evalGo]
    by_cases h1 : isNumericTok t = true
    · rw [if_pos h1, if_pos h1]
      exact ih _ hts
    · rw [if_neg h1, if_neg h1]
      by_cases h2 : (pyStrIsAlnum t.data || isQuotedTok t || hasUnderscore t) = true
      · rw [if_pos h2, if_pos h2]
        by_cases h3 : isQuotedTok t = true
        · rw [if_pos h3, if_pos h3]
          exact ih _ hts
        · rw [if_neg h3, if_neg h3]
          have hid : identTok t = true := by
            have h1' : isNumericTok t = false := by simpa using h1
            have h3' : isQuotedTok t = false := by simpa using h3
            rw [h3'] at h2
            simp at h2
            simp [identTok, h1', h3']
            tauto
          have hft : f t = g t := ht hid
          rw [hft]
          exact except_bind_congr _ fun v => ih _ hts
      · rw [if_neg h2, if_neg h2]
        by_cases h4 : t = "!"
        · rw [if_pos h4, if_pos h4]
          cases stack with
          | nil => rfl
          | cons r rest =>
            exact except_bind_congr _ fun v => ih _ hts
        · rw [if_neg h4, if_neg h4]
          cases stack with
          | nil => rfl
          | cons r rest =>
            cases rest with
            | nil => rfl
            | cons l rest2 =>
              exact except_bind_congr _ fun v => ih _ hts

/-- The getter only reads the values of options whose name matches the key:
two flat trees with the same skeletons and equal values at every matching
position resolve every key identically. -/
theorem getterList_congr (key : String) :
    ∀ (s s' : List ConfigOption), sameSkeleton s s' → FlatTree s →
      (∀ j o o', s.get? j = some o → s'.get? j = some o' →
        pyUpper o.name = pyUpper key → o.value = o'.value) →
      getterList key s = getterList key s' := by
  intro s
  induction s with
  | nil =>
    intro s' hsk _ _
    have hl := sameSkeleton_length hsk
    cases s' with
    | nil => rfl
    | cons b r => simp at hl
  | cons a rest ih =>
    intro s' hsk hflat hval
    obtain ⟨b, rest', rfl⟩ : ∃ b rest', s' = b :: rest' := by
      cases s' with
      | nil => have := sameSkeleton_length hsk; simp at this
      | cons b r => exact ⟨b, r, rfl⟩
    have hsk' := hsk
    simp only [sameSkeleton, List.map, List.cons.injEq] at hsk'
    have hab : skel a = skel b := hsk'.1
    have htail : sameSkeleton rest rest' := hsk'.2
    have hflat' : FlatTree rest := fun i o hio =>
      hflat (i + 1) o (by rw [List.get?_cons_succ]; exact hio)
    have hval' : ∀ j o o', rest.get? j = some o → rest'.get? j = some o' →
        pyUpper o.name = pyUpper key → o.value = o'.value :=
      fun j o o' hj hj' hm =>
        hval (j + 1) o o' (by rw [List.get?_cons_succ]; exact hj)
          (by rw [List.get?_cons_succ]; exact hj') hm
    have hgrp : a.option_type ≠ "group" := hflat 0 a rfl
    have hhead : getterOne key a = getterOne key b := by
      obtain ⟨hn, hty, hdef, hext, hdep, hpf, hos, hch, hexp⟩ := skel_eq_parts hab
      by_cases hname : pyUpper a.name = pyUpper key
      · have hv : a.value = b.value := hval 0 a b rfl rfl hname
        have : a = b := by
          cases a
          cases b
          simp only [ConfigOption.name, ConfigOption.option_type,
            ConfigOption.default, ConfigOption.external,
            ConfigOption.dependencies, ConfigOption.postfix_dependencies,
            ConfigOption.options, ConfigOption.choices, ConfigOption.expanded,
            ConfigOption.value] at hn hty hdef hext hdep hpf hos hch hexp hv
          simp only [ConfigOption.mk.injEq]
          tauto
        rw [this]
      · have hgrp' : b.option_type ≠ "group" := by rw [← hty]; exact hgrp
        have hname' : ¬ pyUpper b.name = pyUpper key := by rw [← hn]; exact hname
        cases a
        cases b
        simp only [ConfigOption.option_type, ConfigOption.name] at hgrp hgrp' hname hname'
        simp only [getterOne]
        rw [if_neg hgrp, if_neg hgrp', if_neg hname, if_neg hname']
    simp only [getterList]
    rw [hhead]
    cases getterOne key b with
    | error e => rfl
    | ok r =>
      cases r with
      | some v => rfl
      | none => exact ih rest' htail hflat' hval'

/-- Availability depends only on an option's static fields and on the
getter at the identifier tokens of its compiled dependency. -/
theorem is_option_available_congr (s s' : List ConfigOption)
    (o o' : ConfigOption) (hsk : skel o = skel o')
    (hget : ∀ t ∈ o.postfix_dependencies, identTok t = true →
      getter_function s t = getter_function s' t) :
    is_option_available s o = is_option_available s' o' := by
  obtain ⟨_, _, _, _, hdep, hpf, _, _, _⟩ := skel_eq_parts hsk
  unfold is_option_available
  rw [← hdep, ← hpf]
  by_cases hd : o.dependencies ≠ ""
  · rw [if_pos hd, if_pos hd]
    unfold evaluate_postfix_expr
    exact evalGo_congr _ _ _ _ _ hget
  · rw [if_neg hd, if_neg hd]

theorem except_error_bind {α β : Type} (e : String)
    (k : α → Except String β) :
    ((Except.error e : Except String α) >>= k) = .error e := rfl

theorem except_ok_bind {α β : Type} (a : α) (k : α → Except String β) :
    ((Except.ok a : Except String α) >>= k) = k a := rfl

theorem except_pure_bind {α β : Type} (a : α) (k : α → Except String β) :
    ((pure a : Except String α) >>= k) = k a := rfl

/-- The value a visibility-pass visit writes into the option it visits:
`None` when unavailable; the restored default when available and currently
`None`; the current value otherwise. -/
def flatStepValue (av : PyVal) (o : ConfigOption) : Except String PyVal :=
  if truthy av then
    if o.value = PyVal.none then restoredValue o else .ok o.value
  else .ok PyVal.none

/-- On a flat tree, one visit of the visibility pass is: evaluate
availability, write `flatStepValue`, move to the next option. -/
theorem flGo_step (fuel : Nat) (sd : Bool) (s : List ConfigOption) (idx : Nat)
    (o : ConfigOption) (ho : s.get? idx = some o)
    (hgrp : o.option_type ≠ "group") :
    flGo (fuel + 1) sd s [] idx =
      (is_option_available s o >>= fun av =>
        flatStepValue av o >>= fun v =>
          flGo fuel sd (setValAt s [idx] v) [] (idx + 1)) := by
  have hlt : idx < s.length := get?_some_lt ho
  have hgrp2 : ¬ (o.option_type = "group" ∧ o.expanded = true) :=
    fun hc => hgrp hc.1
  have hget : getAtE s [idx] = .ok o := by
    unfold getAtE
    have h2 : getAt? s [idx] = some o := ho
    rw [h2]
  simp only [flGo, childrenAt?, List.nil_append]
  rw [if_pos hlt]
  rw [hget]
  simp only [except_ok_bind]
  refine except_bind_congr _ fun av => ?_
  unfold flatStepValue
  by_cases htr : truthy av = true
  · rw [if_pos htr, if_pos htr]
    by_cases hv : o.value = PyVal.none
    · rw [if_pos hv, if_pos hv]
      refine except_bind_congr _ fun v => ?_
      simp only [except_pure_bind, if_neg hgrp2]
    · rw [if_neg hv, if_neg hv]
      simp only [except_pure_bind, except_ok_bind, if_neg hgrp2]
      rw [setValAt_self s idx o ho]
  · rw [if_neg htr, if_neg htr]
    simp only [except_ok_bind, if_pos hgrp]
    cases sd with
    | false => rfl
    | true =>
      simp only [if_neg hgrp2, except_pure_bind]
      simp

theorem flGo_end (fuel : Nat) (sd : Bool) (s : List ConfigOption) (idx : Nat)
    (h : ¬ idx < s.length) : flGo (fuel + 1) sd s [] idx = .ok s := by
  simp only [flGo, childrenAt?]
  rw [if_neg h]

theorem flGo_step_inv {fuel : Nat} {sd : Bool} {s : List ConfigOption}
    {idx : Nat} {o : ConfigOption} {s₁ : List ConfigOption}
    (ho : s.get? idx = some o) (hgrp : o.option_type ≠ "group")
    (h : flGo (fuel + 1) sd s [] idx = .ok s₁) :
    ∃ av v, is_option_available s o = .ok av ∧ flatStepValue av o = .ok v ∧
      flGo fuel sd (setValAt s [idx] v) [] (idx + 1) = .ok s₁ := by
  rw [flGo_step fuel sd s idx o ho hgrp] at h
  cases hav : is_option_available s o with
  | error e => rw [hav, except_error_bind] at h; cases h
  | ok av =>
    rw [hav, except_ok_bind] at h
    cases hv : flatStepValue av o with
    | error e => rw [hv, except_error_bind] at h; cases h
    | ok v =>
      rw [hv, except_ok_bind] at h
      exact ⟨av, v, rfl, hv, h⟩

theorem FlatTree_setValAt {s : List ConfigOption} (i : Nat) (v : PyVal)
    (h : FlatTree s) : FlatTree (setValAt s [i] v) :=
  FlatTree_of_skel (sameSkeleton_setValAt s i v) h

theorem BackRefs_setValAt {s : List ConfigOption} (i : Nat) (v : PyVal)
    (h : BackRefs s) : BackRefs (setValAt s [i] v) :=
  BackRefs_of_skel (sameSkeleton_setValAt s i v) h

theorem NonNullDefaults_setValAt {s : List ConfigOption} (i : Nat) (v : PyVal)
    (h : NonNullDefaults s) : NonNullDefaults (setValAt s [i] v) :=
  NonNullDefaults_of_skel (sameSkeleton_setValAt s i v) h

/-- The visibility pass never touches positions before its cursor. -/
theorem flGo_front_stable : ∀ (fuel : Nat) (sd : Bool) (t : List ConfigOption)
    (idx : Nat) (s₁ : List ConfigOption), FlatTree t →
    flGo fuel sd t [] idx = .ok s₁ → ∀ j, j < idx → s₁.get? j = t.get? j := by
  intro fuel
  induction fuel with
  | zero => intro sd t idx s₁ _ h; cases h
  | succ fuel ih =>
    intro sd t idx s₁ hflat h j hj
    by_cases hidx : idx < t.length
    · obtain ⟨o, ho⟩ : ∃ o, t.get? idx = some o :=
        ⟨t.get ⟨idx, hidx⟩, List.get?_eq_get hidx⟩
      have hgrp := hflat idx o ho
      obtain ⟨av, v, hav, hv, hrec⟩ := flGo_step_inv ho hgrp h
      have hflat' : FlatTree (setValAt t [idx] v) :=
        FlatTree_setValAt idx v hflat
      have hj' := ih sd _ (idx + 1) s₁ hflat' hrec j (Nat.lt_succ_of_lt hj)
      rw [hj', setValAt_get?_ne t idx v j (Nat.ne_of_lt hj)]
    · rw [flGo_end fuel sd t idx hidx] at h
      cases h
      rfl

/-- The visibility pass only changes values, never the skeleton. -/
theorem flGo_skeleton : ∀ (fuel : Nat) (sd : Bool) (t : List ConfigOption)
    (idx : Nat) (s₁ : List ConfigOption), FlatTree t →
    flGo fuel sd t [] idx = .ok s₁ → sameSkeleton t s₁ := by
  intro fuel
  induction fuel with
  | zero => intro sd t idx s₁ _ h; cases h
  | succ fuel ih =>
    intro sd t idx s₁ hflat h
    by_cases hidx : idx < t.length
    · obtain ⟨o, ho⟩ : ∃ o, t.get? idx = some o :=
        ⟨t.get ⟨idx, hidx⟩, List.get?_eq_get hidx⟩
      have hgrp := hflat idx o ho
      obtain ⟨av, v, hav, hv, hrec⟩ := flGo_step_inv ho hgrp h
      have hflat' : FlatTree (setValAt t [idx] v) :=
        FlatTree_setValAt idx v hflat
      exact sameSkeleton_trans (sameSkeleton_setValAt t idx v)
        (ih sd _ (idx + 1) s₁ hflat' hrec)
    · rw [flGo_end fuel sd t idx hidx] at h
      cases h
      exact sameSkeleton_refl _

theorem withValue_option_type (o : ConfigOption) (v : PyVal) :
    (o.withValue v).option_type = o.option_type := by cases o; rfl

theorem withValue_postfix_dependencies (o : ConfigOption) (v : PyVal) :
    (o.withValue v).postfix_dependencies = o.postfix_dependencies := by
  cases o; rfl

theorem restoredValue_withValue (o : ConfigOption) (v : PyVal) :
    restoredValue (o.withValue v) = restoredValue o := by cases o; rfl

/-- The crux of the visibility-pass proofs: on a flat, backward-referencing
tree, the availability the pass computed when it visited position `idx`
still holds in any later state that kept the prefix below `idx`. -/
theorem avail_stable {t s₁ : List ConfigOption} {idx : Nat}
    {o : ConfigOption} (v : PyVal)
    (hflat : FlatTree t) (hback : BackRefs t) (ho : t.get? idx = some o)
    (hsk : sameSkeleton t s₁)
    (hpre : ∀ j, j < idx → s₁.get? j = t.get? j) :
    is_option_available s₁ (o.withValue v) = is_option_available t o := by
  refine is_option_available_congr s₁ t (o.withValue v) o (skel_withValue o v) ?_
  intro tok htok hid
  have htok' : tok ∈ o.postfix_dependencies := by
    rw [withValue_postfix_dependencies] at htok
    exact htok
  have hcongr := getterList_congr tok s₁ t (sameSkeleton_symm hsk)
    (FlatTree_of_skel hsk hflat) ?_
  · unfold getter_function
    rw [hcongr]
  · intro j oj oj' hj hj' hname
    have hskj : skel oj' = skel oj := by
      have hm := sameSkeleton_get? hsk j
      rw [hj, hj'] at hm
      simpa using hm
    obtain ⟨hn, _⟩ := skel_eq_parts hskj
    have hlt : j < idx := hback idx o ho tok htok' hid j oj' hj'
      (by rw [hn]; exact hname)
    have := hpre j hlt
    rw [hj, hj'] at this
    cases this
    rfl

/-- Idempotence of the flat visibility pass: a second run from the state a
successful run produced returns that state unchanged. -/
theorem flGo_idem : ∀ (fuel : Nat) (sd : Bool) (t : List ConfigOption)
    (idx : Nat) (s₁ : List ConfigOption), FlatTree t → BackRefs t →
    flGo fuel sd t [] idx = .ok s₁ → flGo fuel sd s₁ [] idx = .ok s₁ := by
  intro fuel
  induction fuel with
  | zero => intro _ _ _ _ _ _ h; cases h
  | succ fuel ih =>
    intro sd t idx s₁ hflat hback h
    by_cases hidx : idx < t.length
    · obtain ⟨o, ho⟩ : ∃ o, t.get? idx = some o :=
        ⟨t.get ⟨idx, hidx⟩, List.get?_eq_get hidx⟩
      have hgrp := hflat idx o ho
      obtain ⟨av, v, hav, hv, hrec⟩ := flGo_step_inv ho hgrp h
      have hflat' : FlatTree (setValAt t [idx] v) :=
        FlatTree_setValAt idx v hflat
      have hback' : BackRefs (setValAt t [idx] v) :=
        BackRefs_setValAt idx v hback
      have hsk₁ : sameSkeleton t s₁ :=
        sameSkeleton_trans (sameSkeleton_setValAt t idx v)
          (flGo_skeleton fuel sd _ (idx + 1) s₁ hflat' hrec)
      have hpre : ∀ j, j < idx → s₁.get? j = t.get? j := by
        intro j hj
        rw [flGo_front_stable fuel sd _ (idx + 1) s₁ hflat' hrec j
          (Nat.lt_succ_of_lt hj)]
        exact setValAt_get?_ne t idx v j (Nat.ne_of_lt hj)
      have ho₁ : s₁.get? idx = some (o.withValue v) := by
        rw [flGo_front_stable fuel sd _ (idx + 1) s₁ hflat' hrec idx
          (Nat.lt_succ_self idx)]
        exact setValAt_get?_eq t idx v o ho
      have hgrp₁ : (o.withValue v).option_type ≠ "group" := by
        rw [withValue_option_type]
        exact hgrp
      have havail₁ : is_option_available s₁ (o.withValue v) = .ok av := by
        rw [avail_stable v hflat hback ho hsk₁ hpre]
        exact hav
      have hstep₁ : flatStepValue av (o.withValue v) = .ok v := by
        have hrv := restoredValue_withValue o v
        unfold flatStepValue at hv ⊢
        rw [withValue_value, hrv]
        by_cases htr : truthy av = true
        · rw [if_pos htr] at hv ⊢
          by_cases hvn : o.value = PyVal.none
          · rw [if_pos hvn] at hv
            by_cases hveq : v = PyVal.none
            · rw [if_pos hveq]
              exact hv
            · rw [if_neg hveq]
          · rw [if_neg hvn] at hv
            injection hv with hv2
            rw [← hv2, if_neg hvn]
        · rw [if_neg htr] at hv ⊢
          exact hv
      have hset : setValAt s₁ [idx] v = s₁ := by
        have h1 : (o.withValue v).value = v := withValue_value o v
        have := setValAt_self s₁ idx (o.withValue v) ho₁
        rw [h1] at this
        exact this
      have hrec₁ := ih sd _ (idx + 1) s₁ hflat' hback' hrec
      rw [flGo_step fuel sd s₁ idx (o.withValue v) ho₁ hgrp₁]
      rw [havail₁, except_ok_bind, hstep₁, except_ok_bind, hset]
      exact hrec₁
    · rw [flGo_end fuel sd t idx hidx] at h
      cases h
      exact flGo_end fuel sd t idx hidx

theorem except_map_ok {α β : Type} (f : α → β) (a : α) :
    (Except.ok a : Except String α).map f = .ok (f a) := rfl

theorem except_map_error {α β : Type} (f : α → β) (e : String) :
    (Except.error e : Except String α).map f = .error e := rfl

theorem restoredValue_ne_none {o : ConfigOption} {w : PyVal}
    (hdef : o.option_type ≠ "multiple_choice" → o.default ≠ PyVal.none)
    (hw : restoredValue o = .ok w) : w ≠ PyVal.none := by
  unfold restoredValue at hw
  by_cases hmc : o.option_type = "multiple_choice"
  · rw [if_pos hmc] at hw
    cases hi : pyListIndexOf o.choices o.default with
    | error e => rw [hi, except_map_error] at hw; cases hw
    | ok i =>
      rw [hi, except_map_ok] at hw
      injection hw with hw2
      rw [← hw2]
      intro hc
      cases hc
  · rw [if_neg hmc] at hw
    injection hw with hw2
    rw [← hw2]
    exact hdef hmc

/-- After a successful flat visibility pass, every position at or after the
cursor satisfies: value is null iff its dependency evaluates falsy in the
final state. -/
theorem flGo_hidden_iff : ∀ (fuel : Nat) (sd : Bool) (t : List ConfigOption)
    (idx : Nat) (s₁ : List ConfigOption), FlatTree t → BackRefs t →
    NonNullDefaults t → flGo fuel sd t [] idx = .ok s₁ →
    ∀ k, idx ≤ k → ∀ o₁, s₁.get? k = some o₁ →
      ∃ av, is_option_available s₁ o₁ = .ok av ∧
        (o₁.value = PyVal.none ↔ truthy av = false) := by
  intro fuel
  induction fuel with
  | zero => intro _ _ _ _ _ _ _ h; cases h
  | succ fuel ih =>
    intro sd t idx s₁ hflat hback hdef h k hk o₁ ho₁k
    by_cases hidx : idx < t.length
    · obtain ⟨o, ho⟩ : ∃ o, t.get? idx = some o :=
        ⟨t.get ⟨idx, hidx⟩, List.get?_eq_get hidx⟩
      have hgrp := hflat idx o ho
      obtain ⟨av, v, hav, hv, hrec⟩ := flGo_step_inv ho hgrp h
      have hflat' : FlatTree (setValAt t [idx] v) :=
        FlatTree_setValAt idx v hflat
      have hback' : BackRefs (setValAt t [idx] v) :=
        BackRefs_setValAt idx v hback
      have hdef' : NonNullDefaults (setValAt t [idx] v) :=
        NonNullDefaults_setValAt idx v hdef
      by_cases hkidx : k = idx
      · subst hkidx
        have hsk₁ : sameSkeleton t s₁ :=
          sameSkeleton_trans (sameSkeleton_setValAt t k v)
            (flGo_skeleton fuel sd _ (k + 1) s₁ hflat' hrec)
        have hpre : ∀ j, j < k → s₁.get? j = t.get? j := by
          intro j hj
          rw [flGo_front_stable fuel sd _ (k + 1) s₁ hflat' hrec j
            (Nat.lt_succ_of_lt hj)]
          exact setValAt_get?_ne t k v j (Nat.ne_of_lt hj)
        have ho₁ : s₁.get? k = some (o.withValue v) := by
          rw [flGo_front_stable fuel sd _ (k + 1) s₁ hflat' hrec k
            (Nat.lt_succ_self k)]
          exact setValAt_get?_eq t k v o ho
        have heq : o₁ = o.withValue v := by
          rw [ho₁] at ho₁k
          injection ho₁k with h2
          exact h2.symm
        subst heq
        refine ⟨av, ?_, ?_⟩
        · rw [avail_stable v hflat hback ho hsk₁ hpre]
          exact hav
        · rw [withValue_value]
          unfold flatStepValue at hv
          by_cases htr : truthy av = true
          · rw [if_pos htr] at hv
            have hvne : v ≠ PyVal.none := by
              by_cases hvn : o.value = PyVal.none
              · rw [if_pos hvn] at hv
                exact restoredValue_ne_none (hdef k o ho) hv
              · rw [if_neg hvn] at hv
                injection hv with hv2
                rw [← hv2]
                exact hvn
            constructor
            · intro hc
              exact absurd hc hvne
            · intro hc
              rw [htr] at hc
              cases hc
          · rw [if_neg htr] at hv
            injection hv with hv2
            constructor
            · intro _
              simpa using htr
            · intro _
              exact hv2.symm
      · have hk' : idx + 1 ≤ k := by omega
        exact ih sd _ (idx + 1) s₁ hflat' hback' hdef' hrec k hk' o₁ ho₁k
    · rw [flGo_end fuel sd t idx hidx] at h
      cases h
      have := get?_some_lt ho₁k
      omega

deriving instance DecidableEq for Except

/-! ### Concrete scenarios used by the claims -/

/-- A bool option `A`, default true, no dependencies. -/
def cascadeA : ConfigOption :=
  .mk "A" "bool" (.bool true) (.bool true) false "" [] [] [] false

/-- A bool option `B`, default true, raw dependency string `"A"` with its
precompiled postfix. -/
def cascadeB : ConfigOption :=
  .mk "B" "bool" (.bool true) (.bool true) false "A" ["A"] [] [] false

def cascadeTree : List ConfigOption := [cascadeA, cascadeB]

/-- The tree after `A.value = False`. -/
def cascadeS1 : List ConfigOption := setValAt cascadeTree [0] (.bool false)

/-- The tree after the visibility pass has hidden `B`. -/
def cascadeS2 : List ConfigOption :=
  [.mk "A" "bool" (.bool false) (.bool true) false "" [] [] [] false,
   .mk "B" "bool" PyVal.none (.bool true) false "A" ["A"] [] [] false]

/-- `cascadeS2` after `A.value = True`. -/
def cascadeS3 : List ConfigOption := setValAt cascadeS2 [0] (.bool true)

example : cascadeB.postfix_dependencies = ["A"] := rfl
example : compileExpr cascadeB.dependencies = .ok cascadeB.postfix_dependencies := rfl

/-- C1 counterexample: with B depending on `"A"` and A a bool defaulting to
true, setting `A.value` to false and calling
`reset_dependent_options(A, options)` (the spec's `on_value_changed(A)`)
leaves `B.value` equal to `True` — it is **not** set to null, contradicting
the claim's middle step.  `reset_dependent_options` never writes `None`;
only the visibility pass does. -/
theorem claim1_counterexample :
    reset_dependent_options 100 cascadeS1 [0] = .ok cascadeS1 ∧
    (getAt? cascadeS1 [1]).map ConfigOption.value = some (.bool true) ∧
    some (PyVal.bool true) ≠ some PyVal.none := by
  refine ⟨rfl, rfl, ?_⟩
  decide

/-- C1 (amended): forward cascade as the code actually performs it.  With B
depending on `"A"` and A a bool defaulting to true: `is_available(B)` is
initially true; after `A.value = False`, `on_value_changed(A)`
(`reset_dependent_options`) leaves the tree unchanged, and `B.value`
becomes null only when the visibility pass (`flatten_options`, the spec's
`apply_visibility`) next runs; after `A.value = True`,
`on_value_changed(A)` restores `B.value` from null to `B.default`. -/
theorem claim1_amended :
    compileExpr cascadeB.dependencies = .ok cascadeB.postfix_dependencies ∧
    is_option_available cascadeTree cascadeB = .ok (.bool true) ∧
    reset_dependent_options 100 cascadeS1 [0] = .ok cascadeS1 ∧
    flatten_options_values 100 false cascadeS1 = .ok cascadeS2 ∧
    (getAt? cascadeS2 [1]).map ConfigOption.value = some PyVal.none ∧
    reset_dependent_options 100 cascadeS3 [0] =
      .ok [.mk "A" "bool" (.bool true) (.bool true) false "" [] [] [] false,
           .mk "B" "bool" (.bool true) (.bool true) false "A" ["A"] [] [] false] ∧
    (PyVal.bool true = cascadeB.default) :=
  ⟨rfl, rfl, rfl, rfl, rfl, rfl, rfl⟩

/-- The library-engine force-enable scenario: `T` is a hidden bool option
whose dependency list is the single clause `"!X"`; `X` is an *external*
bool option currently true. -/
def fbT : LibOption :=
  .mk "T" "bool" PyVal.none (.bool true) false ["!X"] [] [] false

def fbX : LibOption :=
  .mk "X" "bool" (.bool true) (.bool true) true [] [] [] false

/-- C2 (code bug): `force_enable` on an option whose dependency is `"!X"`
must raise/surface ExternallyRestricted and leave the external `X`
unchanged — but the code's guard `is_externally_restricted` contains
`key == dependency_string[1:]` (a comparison where an assignment was
meant), so for a `!name` clause it looks up the empty name, finds nothing
and reports "not restricted".  `handle_force_enable` therefore proceeds
and silently mutates the external option `X` to `False`. -/
theorem claim2_code_bug :
    fbX.external = true ∧
    PyLib.is_externally_restricted 100 [fbT, fbX] fbT = .ok false ∧
    PyLib.handle_force_enable 100 [fbT, fbX] 0 =
      .ok (.enabled,
        [.mk "T" "bool" (.bool true) (.bool true) false ["!X"] [] [] false,
         .mk "X" "bool" (.bool false) (.bool true) true [] [] [] false]) ∧
    (getAtL? [fbT, fbX] [1]).map LibOption.value = some (.bool true) :=
  ⟨rfl, rfl, rfl, rfl⟩

/-- A self-referential option: bool `X`, default true, dependency `"!X"`. -/
def oscX : ConfigOption :=
  .mk "X" "bool" (.bool true) (.bool true) false "!X" ["X", "!"] [] [] false

example : compileExpr oscX.dependencies = .ok oscX.postfix_dependencies := rfl

/-- C3 counterexample: `apply_visibility` (the value mutation of
`flatten_options`) is not idempotent.  On the one-option tree `[X]` with
`X` a bool depending on `"!X"`, the first pass hides `X`
(value becomes null), and a second pass — with no intervening edits —
restores it to its default: the trees after one and after two passes
differ. -/
theorem claim3_counterexample :
    flatten_options_values 10 false [oscX] =
      .ok [.mk "X" "bool" PyVal.none (.bool true) false "!X" ["X", "!"] [] [] false] ∧
    flatten_options_values 10 false
      [.mk "X" "bool" PyVal.none (.bool true) false "!X" ["X", "!"] [] [] false] =
      .ok [.mk "X" "bool" (.bool true) (.bool true) false "!X" ["X", "!"] [] [] false] ∧
    (ConfigOption.mk "X" "bool" PyVal.none (.bool true) false "!X" ["X", "!"] [] [] false) ≠
      (ConfigOption.mk "X" "bool" (.bool true) (.bool true) false "!X" ["X", "!"] [] [] false) := by
  refine ⟨rfl, rfl, ?_⟩
  intro h
  injection h with h1 h2 h3 h4 h5 h6 h7 h8 h9 h10
  cases h3

/-- C3 (amended): `apply_visibility` is idempotent on flat trees (no
groups) in which every identifier referenced by an option's compiled
dependency matches only options strictly earlier in the walk order; with a
self- or forward-reference (such as the dependency `"!X"` of option `X`
itself) a second run can change the tree. -/
theorem claim3_amended (fuel : Nat) (sd : Bool) (s s₁ : List ConfigOption)
    (hflat : FlatTree s) (hback : BackRefs s)
    (h : flatten_options_values fuel sd s = .ok s₁) :
    flatten_options_values fuel sd s₁ = .ok s₁ :=
  flGo_idem fuel sd s 0 s₁ hflat hback h

/-- Witness scenario for the amended C3/C4: `A` is a visible bool currently
false, `B` depends on `"A"` and is therefore hidden by the pass. -/
def wA : ConfigOption :=
  .mk "A" "bool" (.bool false) (.bool true) false "" [] [] [] false

def wB : ConfigOption :=
  .mk "B" "bool" (.bool true) (.bool true) false "A" ["A"] [] [] false

def wBhidden : ConfigOption :=
  .mk "B" "bool" PyVal.none (.bool true) false "A" ["A"] [] [] false

theorem claim3_amended_witness :
    flatten_options_values 10 false [wA, wBhidden] = .ok [wA, wBhidden] :=
  claim3_amended 10 false [wA, wB] [wA, wBhidden]
    (flatTree_of_ok (by rfl)) (backRefs_of_ok (by rfl)) (by rfl)

/-- A bool option depending on an absent name (its dependency always
evaluates to the falsy `None`). -/
def hidB : ConfigOption :=
  .mk "B" "bool" (.bool true) (.bool true) false "MISSING" ["MISSING"] [] [] false

example : compileExpr hidB.dependencies = .ok hidB.postfix_dependencies := rfl

/-- C4 counterexample: the load-time reset
(`reset_hidden_dependent_options`) does **not** establish
"value null iff unavailable": on the one-option tree `[B]` with `B`
depending on the absent name `MISSING`, `B` is unavailable (its dependency
evaluates to the falsy `None`), yet after the pass `B.value` is its
default `True`, not null — the pass resets hidden options to their
defaults. -/
theorem claim4_counterexample :
    is_option_available [hidB] hidB = .ok PyVal.none ∧
    truthy PyVal.none = false ∧
    reset_hidden_dependent_options 10 [hidB] = .ok [hidB] ∧
    hidB.value = .bool true ∧
    PyVal.bool true ≠ PyVal.none := by
  refine ⟨rfl, rfl, rfl, rfl, ?_⟩
  decide

/-- C4 (amended): after `apply_visibility` (the value mutation of
`flatten_options`) over a flat tree whose dependencies reference only
earlier-listed options and whose non-multiple-choice defaults are
non-null, every option's value is null exactly when its dependency
expression evaluates falsy against the resulting tree.  (The load-time
reset `reset_hidden_dependent_options` does not establish this invariant —
it resets unavailable options to their defaults, see the
counterexample.) -/
theorem claim4_amended (fuel : Nat) (sd : Bool) (s s₁ : List ConfigOption)
    (hflat : FlatTree s) (hback : BackRefs s) (hdef : NonNullDefaults s)
    (h : flatten_options_values fuel sd s = .ok s₁) :
    ∀ k o₁, s₁.get? k = some o₁ →
      ∃ av, is_option_available s₁ o₁ = .ok av ∧
        (o₁.value = PyVal.none ↔ truthy av = false) :=
  fun k o₁ hk =>
    flGo_hidden_iff fuel sd s 0 s₁ hflat hback hdef h k (Nat.zero_le k) o₁ hk

theorem claim4_amended_witness :
    is_option_available [wA, wBhidden] wBhidden = .ok (.bool false) ∧
    (wBhidden.value = PyVal.none ↔ truthy (.bool false) = false) := by
  obtain ⟨av, h1, h2⟩ := claim4_amended 10 false [wA, wB] [wA, wBhidden]
    (flatTree_of_ok (by rfl)) (backRefs_of_ok (by rfl))
    (nonNullDefaults_of_ok (by rfl)) (by rfl) 1 wBhidden (by rfl)
  have hcomp : is_option_available [wA, wBhidden] wBhidden = .ok (.bool false) := rfl
  have hav : PyVal.bool false = av := by
    rw [hcomp] at h1
    injection h1 with h3
  subst hav
  exact ⟨h1, h2⟩

/-- C5 (confirmed): `shunting_yard` uses the precedence table `!`=4,
comparisons=3, `&&`=2, `||`=1; equal-precedence binary operators are popped
before pushing (left association: `A == B == C` compiles to
`A B == C ==`), the right-associative `!` is not (so `!!A` compiles to
`A ! !`); consequently `A || B && C` compiles to `A B C && ||` and
evaluates to `a || (b && c)` for all boolean values. -/
theorem claim5_precedence :
    precedence? "!" = some 4 ∧
    precedence? "==" = some 3 ∧ precedence? "!=" = some 3 ∧
    precedence? ">" = some 3 ∧ precedence? "<" = some 3 ∧
    precedence? ">=" = some 3 ∧ precedence? "<=" = some 3 ∧
    precedence? "&&" = some 2 ∧ precedence? "||" = some 1 ∧
    compileExpr "A || B && C" = .ok ["A", "B", "C", "&&", "||"] ∧
    (∀ a b c : Bool,
      evaluate_with_getter ["A", "B", "C", "&&", "||"]
        (fun k => .ok (if k = "A" then .bool a
                       else if k = "B" then .bool b else .bool c)) =
        .ok (.bool (a || (b && c)))) ∧
    compileExpr "(A || B) && C" = .ok ["A", "B", "||", "C", "&&"] ∧
    compileExpr "A == B == C" = .ok ["A", "B", "==", "C", "=="] ∧
    compileExpr "!!A" = .ok ["A", "!", "!"] ∧
    (∀ a : Bool,
      evaluate_with_getter ["A", "!", "!"] (fun _ => .ok (.bool a)) =
        .ok (.bool a)) := by
  refine ⟨rfl, rfl, rfl, rfl, rfl, rfl, rfl, rfl, rfl, rfl, ?_, rfl, rfl, rfl, ?_⟩
  · intro a b c
    cases a <;> cases b <;> cases c <;> rfl
  · intro a
    cases a <;> rfl

/-- C6 counterexample: the operands `10` (int) and `10.0` (float) have
different types, yet `A == 10.0` with `A = 10` evaluates to true — Python
compares across the numeric tower, so "operands of different types compare
unequal" is false as stated. -/
theorem claim6_counterexample :
    compileExpr "A == 10.0" = .ok ["A", "10.0", "=="] ∧
    evaluate_with_getter ["A", "10.0", "=="] (fun _ => .ok (.int 10)) =
      .ok (.bool true) ∧
    PyVal.int 10 ≠ PyVal.float (mkRat 10 1) := by
  refine ⟨rfl, rfl, ?_⟩
  decide

/-- C6 (amended): `==` and `!=` never raise; bool/int/float operands
compare numerically across those types, while operands of differing
non-numeric types (int vs string, bool vs string, anything vs None)
compare unequal; in particular `A=='1'` with integer `A = 1` evaluates to
false. -/
theorem claim6_amended :
    (∀ l r : PyVal, eval_operator "==" r l = .ok (.bool (pyEq l r))) ∧
    (∀ l r : PyVal, eval_operator "!=" r l = .ok (.bool (! pyEq l r))) ∧
    (∀ (n : Int) (s : String), pyEq (.int n) (.str s) = false) ∧
    (∀ (b : Bool) (s : String), pyEq (.bool b) (.str s) = false) ∧
    (∀ n : Int, pyEq (.int n) PyVal.none = false) ∧
    (∀ s : String, pyEq (.str s) PyVal.none = false) ∧
    compileExpr "A=='1'" = .ok ["A", "'1'", "=="] ∧
    evaluate_with_getter ["A", "'1'", "=="] (fun _ => .ok (.int 1)) =
      .ok (.bool false) ∧
    evaluate_with_getter ["A", "10.0", "=="] (fun _ => .ok (.int 10)) =
      .ok (.bool true) :=
  ⟨fun _ _ => rfl, fun _ _ => rfl, fun _ _ => rfl, fun _ _ => rfl,
   fun _ => rfl, fun _ => rfl, rfl, rfl, rfl⟩

/-- C7 counterexample: over an empty tree both identifiers of `A > B`
resolve to the missing value `None`, and evaluation **raises** (Python's
`None > None` is a TypeError) — "evaluate completes without raising" is
false as stated for ordering comparisons. -/
theorem claim7_counterexample :
    compileExpr "A > B" = .ok ["A", "B", ">"] ∧
    getter_function [] "A" = .ok PyVal.none ∧
    evaluate_with_getter ["A", "B", ">"] (getter_function []) =
      .error "TypeError: unsupported comparison" :=
  ⟨rfl, rfl, rfl⟩

/-- C7 (amended): a name absent from the tree resolves to the missing
value `None` rather than erroring; the boolean and equality operators
(`!`, `&&`, `||`, `==`, `!=`) never raise and treat the missing value as
falsy, so e.g. `A && B` over an empty tree evaluates to false; evaluation
never short-circuits — both operands are resolved before `&&` runs, so an
error while resolving the right operand surfaces even when the left
operand is already falsy; ordering comparisons on missing operands raise
(see the counterexample). -/
theorem claim7_amended :
    (∀ key, getter_function [] key = .ok PyVal.none) ∧
    (∀ r l : PyVal, eval_operator "!" r l = .ok (.bool (! truthy r))) ∧
    (∀ r l : PyVal, eval_operator "&&" r l = .ok (.bool (truthy l && truthy r))) ∧
    (∀ r l : PyVal, eval_operator "||" r l = .ok (.bool (truthy l || truthy r))) ∧
    (∀ r l : PyVal, eval_operator "==" r l = .ok (.bool (pyEq l r))) ∧
    (∀ r l : PyVal, eval_operator "!=" r l = .ok (.bool (! pyEq l r))) ∧
    truthy PyVal.none = false ∧
    (∀ v : PyVal, eval_operator "&&" PyVal.none v = .ok (.bool false)) ∧
    compileExpr "A && B" = .ok ["A", "B", "&&"] ∧
    evaluate_with_getter ["A", "B", "&&"] (getter_function []) =
      .ok (.bool false) ∧
    evaluate_with_getter ["A", "B", "&&"]
      (fun k => if k = "A" then .ok PyVal.none else .error "boom") =
      .error "boom" := by
  refine ⟨fun _ => rfl, fun _ _ => rfl, fun _ _ => rfl, fun _ _ => rfl,
    fun _ _ => rfl, fun _ _ => rfl, rfl, ?_, rfl, rfl, rfl⟩
  intro v
  have h1 : eval_operator "&&" PyVal.none v =
      .ok (.bool (truthy v && truthy PyVal.none)) := rfl
  rw [h1]
  have h2 : (truthy v && truthy PyVal.none) = false := by
    cases truthy v <;> rfl
  rw [h2]

/-- C8 counterexample: compiling the input `!` (tokenize followed by
shunting_yard) does **not** raise — it succeeds with the postfix `["!"]`;
the missing-operand error only arises at evaluation time. -/
theorem claim8_counterexample :
    tokenize "!" = .ok ["!"] ∧
    compileExpr "!" = .ok ["!"] ∧
    compileExpr "!" ≠ .error "Missing operand for '!'" := by
  refine ⟨rfl, rfl, ?_⟩
  decide

/-- C8 (amended): compiling `A && (B || C` raises the mismatched-
parentheses error; compiling `!` succeeds with postfix `["!"]`, and the
missing-operand error is raised when that compiled form is evaluated
(whatever the resolver). -/
theorem claim8_amended :
    compileExpr "A && (B || C" = .error "Mismatched parentheses" ∧
    tokenize "A && (B || C" = .ok ["A", "&&", "(", "B", "||", "C"] ∧
    compileExpr "!" = .ok ["!"] ∧
    (∀ f : String → Except String PyVal,
      evaluate_postfix_expr ["!"] f eval_operator =
        .error "Missing operand for '!'") :=
  ⟨rfl, rfl, rfl, fun _ => rfl⟩

/-- An int option `A` with current value 5. -/
def rawA : ConfigOption :=
  .mk "A" "int" (.int 5) (.int 5) false "" [] [] [] false

/-- A bool option `B` whose raw dependency string is `"A"`. -/
def rawB : ConfigOption :=
  .mk "B" "bool" (.bool true) (.bool true) false "A" ["A"] [] [] false

/-- C9 counterexample: `is_available` does **not** always return a
boolean: with the dependency `"A"` and A an int option of value 5, it
returns the evaluation result `5` itself (truthy, but an int). -/
theorem claim9_counterexample :
    is_option_available [rawA, rawB] rawB = .ok (.int 5) ∧
    PyVal.int 5 ≠ PyVal.bool true ∧
    PyVal.int 5 ≠ PyVal.bool false := by
  refine ⟨rfl, ?_, ?_⟩ <;> decide

/-- C9 (amended): `is_available` returns True when the option's dependency
string is empty, and otherwise returns the raw result of evaluating the
precompiled postfix dependency with the getter bound to the whole tree's
current values — a truthy/falsy value, not necessarily a boolean (for a
bare-identifier dependency it is the referenced option's value itself). -/
theorem claim9_amended :
    (∀ (root : List ConfigOption) (o : ConfigOption), o.dependencies = "" →
      is_option_available root o = .ok (.bool true)) ∧
    (∀ (root : List ConfigOption) (o : ConfigOption), o.dependencies ≠ "" →
      is_option_available root o =
        evaluate_postfix_expr o.postfix_dependencies (getter_function root)
          eval_operator) ∧
    is_option_available [rawA, rawB] rawB = .ok (.int 5) ∧
    truthy (.int 5) = true := by
  refine ⟨?_, ?_, rfl, rfl⟩
  · intro root o h
    unfold is_option_available
    rw [if_neg (fun hc => hc h)]
  · intro root o h
    unfold is_option_available
    rw [if_pos h]

theorem claim9_amended_witness :
    is_option_available [rawA, rawB] rawA = .ok (.bool true) ∧
    is_option_available [rawA, rawB] rawB =
      evaluate_postfix_expr ["A"] (getter_function [rawA, rawB])
        eval_operator := by
  refine ⟨claim9_amended.1 [rawA, rawB] rawA rfl, ?_⟩
  exact claim9_amended.2.1 [rawA, rawB] rawB (by decide)

theorem pySpan_all (p : Char → Bool) :
    ∀ l : List Char, (∀ c ∈ l, p c = true) → pySpan p l = (l, []) := by
  intro l
  induction l with
  | nil => intro _; rfl
  | cons c cs ih =>
    intro h
    simp only [pySpan]
    rw [if_pos (h c (List.mem_cons_self c cs)), ih (fun d hd => h d (List.mem_cons_of_mem c hd))]

theorem contains_eq_false_of_not_mem {a : Char} {l : List Char}
    (h : a ∉ l) : l.contains a = false := by
  simpa using h

/-- C10 counterexample: the malformed token of an unterminated string
literal is **not** always omitted by `shunting_yard` — a token containing
an underscore (here `'oo_ps`, from the input `A && 'oo_ps`) passes the
`'_' in token` operand test and is kept in the postfix output.
(Compilation still succeeds.) -/
theorem claim10_counterexample :
    tokenize "A && 'oo_ps" = .ok ["A", "&&", "'oo_ps"] ∧
    ("'oo_ps").data.head? = some '\'' ∧
    ("'oo_ps").data.getLast? = some 's' ∧
    compileExpr "A && 'oo_ps" = .ok ["A", "'oo_ps", "&&"] :=
  ⟨rfl, rfl, rfl, rfl⟩

/-- C10 (amended): an unterminated single-quoted literal consumes the rest
of the input as one token beginning with the quote (tokenize returns
normally); `shunting_yard` silently drops such a malformed token —
provided it contains no underscore (and is longer than the bare quote) —
and compilation succeeds; a malformed token containing an underscore is
instead kept as an operand (see the counterexample), and compilation
succeeds in that case too. -/
theorem claim10_amended :
    (∀ s : List Char, s ≠ [] → '\'' ∉ s →
      tokenize (String.mk ('\'' :: s)) = .ok [String.mk ('\'' :: s)]) ∧
    (∀ (t : String) (ts output operators : List String),
      t.data.head? = some '\'' → t.data.getLast? ≠ some '\'' →
      '_' ∉ t.data →
      shuntGo (t :: ts) output operators = shuntGo ts output operators) ∧
    tokenize "A && 'oops" = .ok ["A", "&&", "'oops"] ∧
    compileExpr "A && 'oops" = .ok ["A", "&&"] := by
  refine ⟨?_, ?_, rfl, rfl⟩
  · intro s hne hq
    have hspan : pySpan (fun d => d ≠ '\'') s = (s, []) := by
      apply pySpan_all
      intro c hc
      simp only [decide_eq_true_eq]
      intro h
      exact hq (h ▸ hc)
    have hscan : scanQuoted s = (s, []) := by
      unfold scanQuoted
      rw [hspan]
    show (tokenizeGo (s.length + 1) (scanQuoted s).2).map
        (fun ts => String.mk ('\'' :: (scanQuoted s).1) :: ts) =
      .ok [String.mk ('\'' :: s)]
    rw [hscan]
    rfl
  · intro t ts output operators hh hl hu
    obtain ⟨rest, hdata⟩ : ∃ rest, t.data = '\'' :: rest := by
      cases ht : t.data with
      | nil => rw [ht] at hh; cases hh
      | cons c cs =>
        rw [ht] at hh
        simp only [List.head?] at hh
        injection hh with h2
        exact ⟨cs, by rw [← h2]⟩
    have hq1 : pyIsAlnum '\'' = false := by decide
    have hq2 : pyIsDigit '\'' = false := by decide
    have hnum : isNumericTok t = false := by
      unfold isNumericTok
      rw [hdata]
      simp [removeFirstDot, pyStrIsDigit, hq2]
    have halnum : pyStrIsAlnum t.data = false := by
      rw [hdata]
      simp [pyStrIsAlnum, hq1]
    have hquoted : isQuotedTok t = false := by
      simp only [isQuotedTok, hdata]
      have hgl : List.getLast ('\'' :: rest) (by simp) ≠ '\'' := by
        intro hc
        apply hl
        rw [hdata, List.getLast?_eq_getLast ('\'' :: rest) (by simp), hc]
      simp [hgl]
    have hund : hasUnderscore t = false := by
      unfold hasUnderscore
      exact contains_eq_false_of_not_mem hu
    have hoperand : isOperandTok t = false := by
      simp [isOperandTok, hnum, halnum, hquoted, hund]
    have hne2 : ∀ u : String, u.data.head? ≠ some '\'' → ¬ t = u :=
      fun u hu2 ht => hu2 (ht ▸ hh)
    have hprec : precedence? t = none := by
      simp only [precedence?, eq_false (hne2 "!" (by decide)),
        eq_false (hne2 "==" (by decide)), eq_false (hne2 "!=" (by decide)),
        eq_false (hne2 ">" (by decide)), eq_false (hne2 "<" (by decide)),
        eq_false (hne2 ">=" (by decide)), eq_false (hne2 "<=" (by decide)),
        eq_false (hne2 "&&" (by decide)), eq_false (hne2 "||" (by decide))]
      simp
    simp only [shuntGo]
    rw [if_neg (by simp [hoperand])]
    rw [hprec]
    simp only [Option.isSome_none]
    rw [if_neg Bool.false_ne_true]
    rw [if_neg (hne2 "(" (by decide))]
    rw [if_neg (hne2 ")" (by decide))]

theorem claim10_amended_witness :
    tokenize (String.mk ['\'', 'o', 'o', 'p', 's']) =
      .ok [String.mk ['\'', 'o', 'o', 'p', 's']] ∧
    shuntGo ["'oops"] ["A"] ["&&"] = shuntGo [] ["A"] ["&&"] := by
  constructor
  · exact claim10_amended.1 ['o', 'o', 'p', 's'] (by decide) (by decide)
  · exact claim10_amended.2.1 "'oops" [] ["A"] ["&&"] (by decide) (by decide)
      (by decide)
